import Mathlib

/-
Shallow embedding of the OAH booking server (simple-server.js).

Modelling conventions used throughout this file:
* JavaScript numbers that only ever hold integers (dates, counts, delays)
  are modelled as Int or Nat.
* Calendar dates are modelled as integer day numbers (days since the Unix
  epoch, UTC midnight).  1970-01-01 was a Thursday, so the JS
  getUTCDay() of day number d is (d + 4) % 7, and the lexicographic order
  of ISO "YYYY-MM-DD" strings coincides with the numeric order of day
  numbers, so localeCompare-based sorts on ISO dates are modelled as
  numeric sorts.
* JS truthiness of an optional string (undefined / "" are falsy) is
  modelled by truthyOpt.
* Promise.all batches are executed sequentially in dispatch order; the
  discovery loop of the unified endpoint is a sequential state machine
  with explicit fuel (the JS loop has no a-priori bound).
-/

/-! ### Generic helpers: JS-style parsing, truthiness, insertion sort -/

/-- JS truthiness of an optional string: undefined and "" are falsy. -/

def truthyOpt : Option String → Bool
  | some s => s ≠ ""
  | none => false

/-- JS `a || b` for an optional string a with string fallback b. -/
def jsOrS (a : Option String) (b : String) : String :=
  match a with
  | some t => if t = "" then b else t
  | none => b

/-- JS parseInt with decimal digits: skip leading whitespace, optional
sign, then the maximal digit prefix; none models NaN.  (The implicit
radix-16 detection of a bare parseInt on "0x.." prefixes is not modelled;
no time string or retry-after header in this system carries it.) -/
def jsParseIntChars (cs0 : List Char) : Option Int :=
  let cs := cs0.dropWhile (fun c => c = ' ' ∨ c = '\t' ∨ c = '\n' ∨ c = '\r')
  let signAndRest : Bool × List Char :=
    match cs with
    | c :: tl => if c = '-' then (true, tl) else if c = '+' then (false, tl) else (false, cs)
    | [] => (false, [])
  let ds := signAndRest.2.takeWhile (fun c => c.isDigit)
  if ds = [] then none
  else
    let n : Nat := ds.foldl (fun a c => a * 10 + (c.toNat - 48)) 0
    some (if signAndRest.1 then -(n : Int) else (n : Int))

def jsParseInt (s : String) : Option Int := jsParseIntChars s.data

/-- JS String.prototype.split with a single-character separator, over
char lists (so that everything reduces inside the kernel). -/
def splitOnChar (sep : Char) : List Char → List (List Char)
  | [] => [[]]
  | c :: rest =>
    let r := splitOnChar sep rest
    if c = sep then [] :: r
    else
      match r with
      | g :: gs => (c :: g) :: gs
      | [] => [[c]]

/-- Code-point lexicographic ≤ on char lists: the order localeCompare
induces on the ASCII labels and ISO dates this system sorts. -/
def charListLe : List Char → List Char → Bool
  | [], _ => true
  | _ :: _, [] => false
  | a :: as, b :: bs =>
    if a < b then true else if b < a then false else charListLe as bs

/-- Strict version of charListLe. -/
def charListLt : List Char → List Char → Bool
  | [], [] => false
  | [], _ :: _ => true
  | _ :: _, [] => false
  | a :: as, b :: bs =>
    if a < b then true else if b < a then false else charListLt as bs

def strLe (a b : String) : Bool := charListLe a.data b.data

def strLt (a b : String) : Bool := charListLt a.data b.data

/-- Insertion into a ≤-sorted list (JS Array.prototype.sort is stable;
all sort keys this system compares are either distinct or tie-order is
irrelevant to the claims). -/
def insertLe (le : α → α → Bool) (a : α) : List α → List α
  | [] => [a]
  | b :: bs => if le a b then a :: b :: bs else b :: insertLe le a bs

/-- Comparator sort, modelling JS .sort with a total comparator. -/
def sortLe (le : α → α → Bool) (l : List α) : List α :=
  l.foldr (insertLe le) []

/-! ### The slot data model and hourly aggregation

From simple-server.js lines 718-773 (aggregateSlotsIntoHourlyBuckets) and
line 1386-1388 (availableSlotsCount).  A slot as received from the
upstream system: availability is read only through the capitalized
`Available` property; the time may arrive in any of the `Time`, `time`,
`start_time` fields.  The lowercase `available` field is carried in the
model because upstream payloads may use it, but no code under test reads
it. -/

structure Slot where
  Available : Bool
  available : Bool
  Time : Option String
  time : Option String
  start_time : Option String
deriving DecidableEq

/-- `slot.Time || slot.time || slot.start_time || ''` (line 726). -/
def slotTimeStr (s : Slot) : String :=
  jsOrS s.Time (jsOrS s.time (jsOrS s.start_time ""))

/-- Hour extraction from a time string (lines 729-744): an ISO datetime
containing a date separator takes the hour from the portion after it,
otherwise the leading field before the first colon is parsed. -/
def parseSlotHour (timeStr : String) : Option Int :=
  if timeStr.data = [] then none
  else if timeStr.data.contains ('T') then
    match (splitOnChar ('T') timeStr.data).get? 1 with
    | none => none
    | some tp =>
      if tp = [] then none
      else jsParseIntChars ((splitOnChar (':') tp).headD [])
  else jsParseIntChars ((splitOnChar (':') timeStr.data).headD [])

/-- Two-digit hour label `HH:00` (line 752). -/
def hourLabel (h : Nat) : String :=
  (if h < 10 then ("0") ++ toString h else toString h) ++ (":00")

/-- The bucket key a slot contributes to, or none when the slot is
dropped: unavailable slots (line 723), empty time strings (line 727),
unparseable times and hours outside 0-23 (lines 747-750). -/
def slotHourKey (s : Slot) : Option String :=
  if !s.Available then none
  else if slotTimeStr s = "" then none
  else
    match parseSlotHour (slotTimeStr s) with
    | none => none
    | some h => if h < 0 ∨ 23 < h then none else some (hourLabel h.toNat)

structure HourlyBucket where
  time : String
  available : Bool
  count : Nat
  slots : List Slot
deriving DecidableEq

/-- Map-backed bucket accumulation (lines 754-767): a new key appends a
fresh bucket at the end (JS Map preserves insertion order); an existing
key increments its count and appends the slot to its member list. -/
def addToBuckets : List HourlyBucket → String → Slot → List HourlyBucket
  | [], key, s => [{ time := key, available := true, count := 1, slots := [s] }]
  | b :: rest, key, s =>
    if b.time = key then
      { time := b.time, available := b.available, count := b.count + 1, slots := b.slots ++ [s] } :: rest
    else b :: addToBuckets rest key s

def aggAux : List Slot → List HourlyBucket → List HourlyBucket
  | [], acc => acc
  | s :: rest, acc =>
    match slotHourKey s with
    | none => aggAux rest acc
    | some key => aggAux rest (addToBuckets acc key s)

/-- aggregateSlotsIntoHourlyBuckets (lines 719-773): accumulate buckets,
then sort ascending by hour label (localeCompare on `HH:00` labels agrees
with String ≤). -/
def aggregateSlotsIntoHourlyBuckets (slots : List Slot) : List HourlyBucket :=
  sortLe (fun a b => strLe a.time b.time) (aggAux slots [])

/-- Per-result available-slot count (lines 1386-1388): slots with truthy
capitalized `Available`. -/
def availableSlotsCount (slots : List Slot) : Nat :=
  (slots.filter (fun s => s.Available)).length

/-- Total bucket count carried by a given hour label. -/
def bucketCountAt (bs : List HourlyBucket) (lab : String) : Nat :=
  ((bs.filter (fun b => b.time = lab)).map (fun b => b.count)).sum

/-! ### Merging hourly buckets across centers

From simple-server.js lines 813-840 (mergeHourlySlotsAcrossCenters): the
function receives one flat array of hourly buckets (the per-location
bucket lists concatenated) and folds them into a Map keyed by hour
label, summing counts and collecting per-center slot groups, then sorts
ascending by hour label. -/

structure CenterBucketPart where
  slots : List Slot
  count : Nat
deriving DecidableEq

structure MergedBucket where
  time : String
  available : Bool
  count : Nat
  centers : List CenterBucketPart
deriving DecidableEq

def addMerged : List MergedBucket → HourlyBucket → List MergedBucket
  | [], hb => [{ time := hb.time, available := true, count := hb.count,
                 centers := [{ slots := hb.slots, count := hb.count }] }]
  | m :: rest, hb =>
    if m.time = hb.time then
      { time := m.time, available := m.available, count := m.count + hb.count,
        centers := m.centers ++ [{ slots := hb.slots, count := hb.count }] } :: rest
    else m :: addMerged rest hb

def mergeHourlySlotsAcrossCenters (hourlySlotsArray : List HourlyBucket) : List MergedBucket :=
  sortLe (fun a b => strLe a.time b.time) (hourlySlotsArray.foldl addMerged [])

/-- Total merged count carried by a given hour label. -/
def mergedCountAt (ms : List MergedBucket) (lab : String) : Nat :=
  ((ms.filter (fun b => b.time = lab)).map (fun b => b.count)).sum

/-! ### Rate-limited request execution

From simple-server.js lines 122-176.  The semaphore only sequences
execution and is invisible to the retry behaviour of a single request, so
one logical request is modelled as a function from attempt index to
outcome (attempt i is the i-th time requestFn is invoked, i.e. the call
with retryCount = i); the retry loop of makeZenotiRequest is the
recursion below.  Sleeps are recorded instead of performed. -/

structure JsResp where
  status : Nat
  retryAfter : Option String
deriving DecidableEq

structure JsErr where
  response : Option JsResp
  message : String
deriving DecidableEq

inductive Attempt where
  | ok (v : Nat)
  | fail (e : JsErr)
deriving DecidableEq

structure RateLimitTracker where
  retryDelays : List Int
  maxRetries : Nat

/-- Lines 124-127. -/
def rateLimitTracker : RateLimitTracker :=
  { retryDelays := [1000, 2000, 5000, 10000], maxRetries := 4 }

/-- `error.response && error.response.status === 429` (line 154). -/
def is429 (e : JsErr) : Bool :=
  match e.response with
  | some r => r.status = 429
  | none => false

/-- `rateLimitTracker.retryDelays[retryCount] || 10000` (line 156). -/
def scheduledDelay (retryCount : Nat) : Int :=
  match rateLimitTracker.retryDelays.get? retryCount with
  | some v => if v = 0 then 10000 else v
  | none => 10000

/-- `retryAfter ? parseInt(retryAfter) * 1000 : delay` (lines 160-161);
none models NaN (an unparseable retry-after header). -/
def actualDelay (retryCount : Nat) (e : JsErr) : Option Int :=
  match e.response with
  | some r =>
    match r.retryAfter with
    | some s =>
      if s = "" then some (scheduledDelay retryCount)
      else (jsParseInt s).map (fun n => n * 1000)
    | none => some (scheduledDelay retryCount)
  | none => some (scheduledDelay retryCount)

/-- `if (actualDelay > 0) await sleep(actualDelay)` (lines 163-165). -/
def sleepsFor (retryCount : Nat) (e : JsErr) : List Int :=
  match actualDelay retryCount e with
  | some d => if 0 < d then [d] else []
  | none => []

inductive ZReqResult where
  | success (v : Nat)
  | rateLimited
  | thrown (e : JsErr)
deriving DecidableEq

structure RunTrace where
  result : ZReqResult
  attempts : Nat
  sleeps : List Int
deriving DecidableEq

/-- makeZenotiRequest (lines 148-176): return on success; on a 429 error
with retryCount below maxRetries sleep and recurse with retryCount + 1,
after maxRetries retries fail with the rate-limit-exceeded error; rethrow
any non-429 error immediately. -/
def makeZenotiRequest (attempts : Nat → Attempt) (retryCount : Nat) : RunTrace :=
  match attempts retryCount with
  | .ok v => { result := .success v, attempts := 1, sleeps := [] }
  | .fail e =>
    if is429 e then
      if h : retryCount < rateLimitTracker.maxRetries then
        let rest := makeZenotiRequest attempts (retryCount + 1)
        { result := rest.result, attempts := rest.attempts + 1,
          sleeps := sleepsFor retryCount e ++ rest.sleeps }
      else { result := .rateLimited, attempts := 1, sleeps := [] }
    else { result := .thrown e, attempts := 1, sleeps := [] }
termination_by rateLimitTracker.maxRetries - retryCount
decreasing_by omega

/-! ### Process-wide response cache and the cached upstream operations

From simple-server.js lines 84-86 and 131-144 (cache, getCachedData,
setCachedData), lines 619-675 (createZenotiBooking) and lines 678-716
(fetchZenotiSlots).  Cache keys are modelled structurally: the JS string
keys `booking-centerId-date-services.join(',')` and
`slots-bookingId-future|current` live in disjoint namespaces thanks to
their prefixes, which the two CacheKey constructors mirror.  The network
is an Upstream oracle giving the final (post-retry) outcome of each
upstream operation; bookingCalls / slotsCalls record the upstream
requests actually issued (cache hits issue none).  `now` is the Date.now
clock, constant within one call. -/

structure BookingRes where
  id : Option String
  error : Option String
deriving DecidableEq

structure FutureDay where
  day : Option Int
  isAvailable : Bool
deriving DecidableEq

structure SlotsRes where
  slots : List Slot
  future_days : List FutureDay
  Error : Option String
deriving DecidableEq

inductive CachedVal where
  | booking (b : BookingRes)
  | slotsData (s : SlotsRes)
deriving DecidableEq

inductive CacheKey where
  | booking (centerId : String) (date : Int) (services : List String)
  | slots (bookingId : String) (future : Bool)
deriving DecidableEq

structure CacheEntry where
  data : CachedVal
  timestamp : Int
deriving DecidableEq

/-- Line 86: 5 minutes. -/
def CACHE_TTL : Int := 5 * 60 * 1000

structure BookingCall where
  centerId : String
  date : Int
  services : List String
deriving DecidableEq

structure ZState where
  cache : List (CacheKey × CacheEntry)
  now : Int
  bookingCalls : List BookingCall
  slotsCalls : List (String × Bool)
deriving DecidableEq

/-- Map.set: replace in place when present, append otherwise. -/
def cacheSet : List (CacheKey × CacheEntry) → CacheKey → CacheEntry → List (CacheKey × CacheEntry)
  | [], k, e => [(k, e)]
  | (k0, e0) :: rest, k, e =>
    if k0 = k then (k0, e) :: rest else (k0, e0) :: cacheSet rest k e

/-- Lines 131-137: an entry older than the TTL is a miss. -/
def getCachedData (key : CacheKey) (z : ZState) : Option CachedVal :=
  match z.cache.find? (fun p => p.1 = key) with
  | some p => if z.now - p.2.timestamp < CACHE_TTL then some p.2.data else none
  | none => none

/-- Lines 139-144 (the extra TTL argument passed at call sites is ignored
by the two-parameter JS function; the effective TTL is CACHE_TTL). -/
def setCachedData (key : CacheKey) (v : CachedVal) (z : ZState) : ZState :=
  { z with cache := cacheSet z.cache key { data := v, timestamp := z.now } }

/-- The external booking system (spec section 6), giving the final
outcome of one upstream operation after makeZenotiRequest's own retry
handling; an error value is the message of the thrown error. -/
structure Upstream where
  createBooking : String → Int → List String → Except String BookingRes
  getSlots : String → Bool → Except String SlotsRes

/-- createZenotiBooking (lines 619-675): fail when no API key is
configured; return the cached result on a fresh cache hit; otherwise call
upstream, cache the response on success, and rethrow errors uncached.
The request payload (formatted date, guests array) only feeds the
upstream call and is folded into the oracle. -/
def createZenotiBooking (up : Upstream) (apiKeyOk : Bool) (centerId : String)
    (date : Int) (serviceIds : List String) (z : ZState) :
    Except String BookingRes × ZState :=
  if !apiKeyOk then (.error ("Zenoti API key not configured"), z)
  else
    match getCachedData (CacheKey.booking centerId date serviceIds) z with
    | some (.booking b) => (.ok b, z)
    | _ =>
      let z1 := { z with bookingCalls :=
        z.bookingCalls ++ [{ centerId := centerId, date := date, services := serviceIds }] }
      match up.createBooking centerId date serviceIds with
      | .ok b => (.ok b, setCachedData (CacheKey.booking centerId date serviceIds) (.booking b) z1)
      | .error msg => (.error msg, z1)

/-- fetchZenotiSlots (lines 678-716), same shape as createZenotiBooking
with the (bookingId, future-flag) cache key. -/
def fetchZenotiSlots (up : Upstream) (apiKeyOk : Bool) (bookingId : String)
    (checkFutureDayAvailability : Bool) (z : ZState) :
    Except String SlotsRes × ZState :=
  if !apiKeyOk then (.error ("Zenoti API key not configured"), z)
  else
    match getCachedData (CacheKey.slots bookingId checkFutureDayAvailability) z with
    | some (.slotsData s) => (.ok s, z)
    | _ =>
      let z1 := { z with slotsCalls := z.slotsCalls ++ [(bookingId, checkFutureDayAvailability)] }
      match up.getSlots bookingId checkFutureDayAvailability with
      | .ok s => (.ok s, setCachedData (CacheKey.slots bookingId checkFutureDayAvailability) (.slotsData s) z1)
      | .error msg => (.error msg, z1)

/-! ### Week-based date generation

From simple-server.js lines 26-70.  Dates are integer day numbers; the JS
getUTCDay() of day number d is (d + 4) % 7 (1970-01-01 was a Thursday). -/

structure WeekInfo where
  week : Nat
  weekName : String
  date : Int
  isCurrentWeek : Bool
deriving DecidableEq

def dayOfWeek (d : Int) : Int := (d + 4) % 7

/-- getWeekDates (lines 27-53): one entry per requested week, dated at
the Sunday starting that week. -/
def getWeekDates (today : Int) (weeks : Nat) : List WeekInfo :=
  (List.range weeks).map (fun w =>
    { week := w + 1,
      weekName := if w = 0 then ("Current Week") else ("Week ") ++ toString (w + 1),
      date := (today - dayOfWeek today) + 7 * (w : Int),
      isCurrentWeek := w = 0 })

/-- getWeekStartDate (lines 60-70); the invalid-date fallback branch has
no counterpart for integer day numbers. -/
def getWeekStartDate (d : Int) : Int := d - dayOfWeek d

/-- Lines 1025-1043: the week start dates filtered to the inclusive
28-day horizon [today, today + 28]. -/
def targetDatesFor (today : Int) (weeks : Nat) : List Int :=
  ((getWeekDates today weeks).map (fun w => w.date)).filter
    (fun d => today ≤ d ∧ d ≤ today + 28)

/-! ### JSON-shaped response values -/

inductive JVal where
  | null
  | bool (b : Bool)
  | num (n : Int)
  | str (s : String)
  | arr (xs : List JVal)
  | obj (fields : List (String × JVal))

def jLookup (j : JVal) (k : String) : Option JVal :=
  match j with
  | .obj fs => (fs.find? (fun p => p.1 = k)).map (fun p => p.2)
  | _ => none

structure Response where
  status : Nat
  body : JVal

/-! ### The unified discovery endpoint

From simple-server.js lines 1004-1597 (app.post /api/slots/unified),
modelled as a sequential state machine.  Promise.all batches run in
dispatch order; the response `message` strings, the bookingMap, the
futureDayAvailabilityMap / futureDayBookingMap / slotsByBookingId /
bookingMapping accumulators and the per-result discovery-trail arrays are
omitted: none of them feed the dedup logic, the probe traffic, or any
field of the returned JSON other than `message`. -/

abbrev CDKey := String × Int

structure InitRes where
  centerId : String
  date : Int
  bookingId : Option String
deriving DecidableEq

structure SlotResult where
  centerId : String
  date : Int
  bookingId : Option String
  slots : List Slot
  futureDays : List FutureDay
  error : Option String
  sourceBookingId : Option String
deriving DecidableEq

structure FutureItem where
  centerId : String
  date : Int
  sourceBookingId : Option String
deriving DecidableEq

structure LoopState where
  z : ZState
  resultQueue : List SlotResult
  futureQueue : List FutureItem
  processed : List CDKey
  pending : List CDKey
  booked : List (CDKey × String)
  allResults : List SlotResult
  generations : Nat
deriving DecidableEq

def resKey (r : SlotResult) : CDKey := (r.centerId, r.date)

def itemKey (it : FutureItem) : CDKey := (it.centerId, it.date)

def bookedKeys (st : LoopState) : List CDKey := st.booked.map (fun p => p.1)

/-- Map.set on the centerDateBookingMap. -/
def bookedSet : List (CDKey × String) → CDKey → String → List (CDKey × String)
  | [], k, v => [(k, v)]
  | (k0, v0) :: rest, k, v =>
    if k0 = k then (k0, v) :: rest else (k0, v0) :: bookedSet rest k v

/-- Set.add (JS sets are duplicate-free; insertion appends). -/
def setInsert (l : List CDKey) (k : CDKey) : List CDKey :=
  if k ∈ l then l else l ++ [k]

/-- Set.delete. -/
def setErase (l : List CDKey) (k : CDKey) : List CDKey :=
  l.filter (fun x => x ≠ k)

/-- `bookingData.id && !bookingData.error` (line 1068). -/
def bookingAccepted (b : BookingRes) : Bool :=
  truthyOpt b.id && !truthyOpt b.error

def prodPairs (centers : List String) (dates : List Int) : List CDKey :=
  (centers.map (fun c => dates.map (fun d => (c, d)))).flatten

structure Phase1Out where
  results : List InitRes
  z : ZState
  booked : List (CDKey × String)
deriving DecidableEq

/-- One initial booking creation (lines 1063-1082): an accepted booking
(truthy id, falsy error) is recorded in the centerDateBookingMap; any
other outcome yields a bookingId-less result. -/
def phase1Step (up : Upstream) (ak : Bool) (services : List String)
    (acc : Phase1Out) (p : CDKey) : Phase1Out :=
  match createZenotiBooking up ak p.1 p.2 services acc.z with
  | (.ok b, z1) =>
    if bookingAccepted b then
      { results := acc.results ++ [{ centerId := p.1, date := p.2, bookingId := b.id }],
        z := z1, booked := bookedSet acc.booked p (b.id.getD "") }
    else
      { results := acc.results ++ [{ centerId := p.1, date := p.2, bookingId := none }],
        z := z1, booked := acc.booked }
  | (.error _, z1) =>
    { results := acc.results ++ [{ centerId := p.1, date := p.2, bookingId := none }],
      z := z1, booked := acc.booked }

def phase1 (up : Upstream) (ak : Bool) (services : List String)
    (pairs : List CDKey) (z : ZState) : Phase1Out :=
  pairs.foldl (phase1Step up ak services) { results := [], z := z, booked := [] }

/-- Initial slot fetch for one successful booking (lines 1110-1146): a
fetch failure is absorbed into a result with empty slots and the error
message. -/
def fetchSlotResult (up : Upstream) (ak : Bool) (c : String) (d : Int) (bid : String)
    (z : ZState) : SlotResult × ZState :=
  match fetchZenotiSlots up ak bid true z with
  | (.ok sd, z1) =>
    ({ centerId := c, date := d, bookingId := some bid, slots := sd.slots,
       futureDays := sd.future_days, error := sd.Error, sourceBookingId := some bid }, z1)
  | (.error msg, z1) =>
    ({ centerId := c, date := d, bookingId := some bid, slots := [],
       futureDays := [], error := some msg, sourceBookingId := some bid }, z1)

def phase2 (up : Upstream) (ak : Bool) (succ : List InitRes) (z : ZState) :
    List SlotResult × ZState :=
  succ.foldl (fun acc r =>
    match r.bookingId with
    | some bid =>
      let out := fetchSlotResult up ak r.centerId r.date bid acc.2
      (acc.1 ++ [out.1], out.2)
    | none => acc) ([], z)

/-- enqueueFutureBooking (lines 1182-1200): a key that is processed,
pending, or already has a booking recorded is not enqueued; otherwise it
is marked pending and queued.  (The JS falsy-date early return has no
counterpart: hint dates are extracted through futureAvailableDates and
are always present.) -/
def enqueueFutureBooking (st : LoopState) (centerId : String)
    (srcBookingId : Option String) (futureDate : Int) : LoopState :=
  if (centerId, futureDate) ∈ st.processed ∨ (centerId, futureDate) ∈ st.pending ∨
      (centerId, futureDate) ∈ bookedKeys st then st
  else
    { st with pending := st.pending ++ [(centerId, futureDate)],
              futureQueue := st.futureQueue ++
                [{ centerId := centerId, date := futureDate, sourceBookingId := srcBookingId }] }

/-- Lines 1246-1257: hint days marked available, with their dates. -/
def futureAvailableDates (fds : List FutureDay) : List Int :=
  fds.filterMap (fun fd => if fd.isAvailable then fd.day else none)

/-- Processing one dequeued result (lines 1202-1275): record it, mark its
key processed and no longer pending, record its booking, and enqueue its
available future-day hints. -/
def processResult (st : LoopState) (r : SlotResult) : LoopState :=
  let st1 := { st with
    allResults := st.allResults ++ [r],
    processed := setInsert st.processed (resKey r),
    pending := setErase st.pending (resKey r) }
  let st2 :=
    if truthyOpt r.bookingId then
      { st1 with booked := bookedSet st1.booked (resKey r) (r.bookingId.getD "") }
    else st1
  (futureAvailableDates r.futureDays).foldl
    (fun s d => enqueueFutureBooking s r.centerId r.bookingId d) st2

/-- One future-booking batch item (lines 1279-1355): create the booking;
on a missing id or a thrown error the key is released from the pending
set and no result is produced; on success the booking is recorded, the
slots are fetched, and the pending key is released in all cases. -/
def processFutureItem (up : Upstream) (ak : Bool) (services : List String)
    (st : LoopState) (it : FutureItem) : LoopState × Option SlotResult :=
  match createZenotiBooking up ak it.centerId it.date services st.z with
  | (.error _, z1) =>
    ({ st with z := z1, pending := setErase st.pending (itemKey it) }, none)
  | (.ok b, z1) =>
    if !truthyOpt b.id then
      ({ st with z := z1, pending := setErase st.pending (itemKey it) }, none)
    else
      let bid := b.id.getD ""
      let st2 := { st with z := z1, booked := bookedSet st.booked (itemKey it) bid }
      match fetchZenotiSlots up ak bid true st2.z with
      | (.error _, z2) =>
        ({ st2 with z := z2, pending := setErase st2.pending (itemKey it) }, none)
      | (.ok sd, z2) =>
        ({ st2 with z := z2, pending := setErase st2.pending (itemKey it) },
         some { centerId := it.centerId, date := it.date, bookingId := b.id,
                slots := sd.slots, futureDays := sd.future_days, error := sd.Error,
                sourceBookingId := it.sourceBookingId })

def runBatch (up : Upstream) (ak : Bool) (services : List String)
    (st : LoopState) (items : List FutureItem) : LoopState × List SlotResult :=
  items.foldl (fun a it =>
    ((processFutureItem up ak services a.1 it).1,
     a.2 ++ (processFutureItem up ak services a.1 it).2.toList)) (st, [])

/-- One iteration of the while loop (lines 1202-1363): process the head
result; when the queue drains and future bookings are waiting, splice the
whole future queue into one batch (a new generation) and enqueue its
successful results. -/
def discStep (up : Upstream) (ak : Bool) (services : List String)
    (st : LoopState) : LoopState :=
  match hq : st.resultQueue with
  | [] => st
  | r :: rest =>
    let st1 := processResult { st with resultQueue := rest } r
    if st1.resultQueue = [] ∧ st1.futureQueue ≠ [] then
      let items := st1.futureQueue
      let st2 := { st1 with futureQueue := [], generations := st1.generations + 1 }
      let out := runBatch up ak services st2 items
      { out.1 with resultQueue := out.2 }
    else st1

/-- The while loop with explicit fuel; the JS loop has no intrinsic
iteration bound (each iteration consumes one queued result). -/
def discLoop (up : Upstream) (ak : Bool) (services : List String) :
    Nat → LoopState → LoopState
  | 0, st => st
  | Nat.succ f, st =>
    if st.resultQueue = [] then st
    else discLoop up ak services f (discStep up ak services st)

/-! ### Assembling the unified response

From simple-server.js lines 1365-1597.  The weeklyAvailability map
computed at lines 1500-1517 feeds no field of the returned JSON (the
response data carries only date_availability, available_dates, centers,
services, processing_time_ms) and is therefore not materialized.
processing_time_ms is 0 under the constant model clock. -/

structure Provider where
  provider_id : String
  priority : Option Int
deriving DecidableEq

/-- getProviderById (lines 77-79); the providers directory is imported
static data and is passed as a parameter here. -/
def getProviderById (providers : List Provider) (providerId : String) : Option Provider :=
  providers.find? (fun p => p.provider_id = providerId)

structure CenterDateEntry where
  slots : List Slot
  hourly_buckets : List HourlyBucket
  available_slots_count : Nat
  has_slots : Bool
  booking_id : Option String
  source_booking_id : Option String
deriving DecidableEq

/-- Lines 1386-1410: the per-(date, center) record kept in slotsByDate
(fields not read by the response construction are omitted). -/
def entryOf (r : SlotResult) : CenterDateEntry :=
  { slots := r.slots,
    hourly_buckets := aggregateSlotsIntoHourlyBuckets r.slots,
    available_slots_count := availableSlotsCount r.slots,
    has_slots := decide (0 < availableSlotsCount r.slots),
    booking_id := r.bookingId,
    source_booking_id := r.sourceBookingId }

def sbdSetCenter : List (String × CenterDateEntry) → String → CenterDateEntry →
    List (String × CenterDateEntry)
  | [], c, e => [(c, e)]
  | (c0, e0) :: rest, c, e =>
    if c0 = c then (c0, e) :: rest else (c0, e0) :: sbdSetCenter rest c e

def sbdSet : List (Int × List (String × CenterDateEntry)) → Int → String →
    CenterDateEntry → List (Int × List (String × CenterDateEntry))
  | [], d, c, e => [(d, [(c, e)])]
  | (d0, inner) :: rest, d, c, e =>
    if d0 = d then (d0, sbdSetCenter inner c e) :: rest
    else (d0, inner) :: sbdSet rest d c e

def buildSlotsByDate (rs : List SlotResult) : List (Int × List (String × CenterDateEntry)) :=
  rs.foldl (fun m r => sbdSet m r.date r.centerId (entryOf r)) []

/-- Lines 1462-1470: buckets kept for the response. -/
def hourlySlotsJ (bs : List HourlyBucket) : List JVal :=
  (bs.filter (fun b => decide (b.time ≠ "") && b.available && decide (0 < b.count))).map
    (fun b => .obj [(("time"), .str b.time), (("available"), .bool b.available),
                    (("count"), .num (b.count : Int))])

/-- Lines 1472-1477: times of the available slots. -/
def slotTimesOf (slots : List Slot) : List String :=
  slots.filterMap (fun s =>
    if s.Available then (if slotTimeStr s = "" then none else some (slotTimeStr s)) else none)

/-- `centerData.booking_id || centerData.source_booking_id || null`. -/
def jsStrOrNull (a b : Option String) : JVal :=
  if truthyOpt a then .str (a.getD "") else if truthyOpt b then .str (b.getD "") else .null

structure CenterDetail where
  id : String
  no_of_slots : Nat
  hourly_slots : List JVal
  slotTimes : List String
  booking_id : JVal
  priority : Option Int

/-- Lines 1479-1487. -/
def centerDetail (providers : List Provider) (c : String) (e : CenterDateEntry) : CenterDetail :=
  { id := c, no_of_slots := e.available_slots_count,
    hourly_slots := hourlySlotsJ e.hourly_buckets,
    slotTimes := slotTimesOf e.slots,
    booking_id := jsStrOrNull e.booking_id e.source_booking_id,
    priority := (getProviderById providers c).bind (fun p => p.priority) }

/-- `(a.priority ?? 999)` sort key of line 1488. -/
def priorityKey (cd : CenterDetail) : Int := cd.priority.getD 999

def centerDetailJ (cd : CenterDetail) : JVal :=
  .obj [(("id"), .str cd.id),
        (("no_of_slots"), .num (cd.no_of_slots : Int)),
        (("hourly_slots"), .arr cd.hourly_slots),
        (("slots"), .arr (cd.slotTimes.map (fun t => .obj [(("time"), .str t)]))),
        (("booking_id"), cd.booking_id),
        (("priority"), match cd.priority with | some p => .num p | none => .null)]

/-- Lines 1451-1498: the per-date summary (hasSlots flag and JSON body). -/
def dateAvailOf (providers : List Provider) (entries : List (String × CenterDateEntry)) :
    Bool × JVal :=
  let total : Nat := (entries.map (fun p => p.2.available_slots_count)).sum
  let details := sortLe (fun a b => priorityKey a ≤ priorityKey b)
    ((entries.filter (fun p => p.2.has_slots)).map (fun p => centerDetail providers p.1 p.2))
  let hasSlots := decide (0 < details.length)
  (hasSlots,
   .obj [(("hasSlots"), .bool hasSlots),
         (("centersWithAvailability"), .num (details.length : Int)),
         (("totalAvailableSlots"), .num (total : Int)),
         (("center_ids"), .arr (details.map centerDetailJ))])

/-- Lines 1365-1533 and 1579-1589: date keys sorted ascending
(localeCompare on ISO dates = numeric order), availableDates = the
sorted dates whose summary hasSlots, and the returned data object. -/
def assembleData (providers : List Provider) (centers services : List String)
    (st : LoopState) : List Int × JVal :=
  let sbd := buildSlotsByDate st.allResults
  let sortedDates := sortLe (fun a b : Int => a ≤ b) (sbd.map (fun p => p.1))
  let dav : List (Int × Bool × JVal) := sortedDates.map (fun d =>
    let entries := (((sbd.find? (fun p => p.1 = d)).map (fun p => p.2)).getD [])
    let hj := dateAvailOf providers entries
    (d, hj.1, hj.2))
  let availableDates := (dav.filter (fun p => p.2.1)).map (fun p => p.1)
  (availableDates,
   .obj [(("date_availability"), .obj (dav.map (fun p => (toString p.1, p.2.2)))),
         (("available_dates"), .arr (availableDates.map (fun d => .num d))),
         (("centers"), .arr (centers.map (fun c => .str c))),
         (("services"), .arr (services.map (fun s => .str s))),
         (("processing_time_ms"), .num 0)])

def errorResponse (status : Nat) (msg : String) : Response :=
  { status := status, body := .obj [(("success"), .bool false), (("error"), .str msg)] }

/-- Lines 1089-1107: the zero-successful-bookings success response (its
message string is omitted). -/
def noBookingsResponse (centers services : List String) (targetDates : List Int)
    (weekInfo : List WeekInfo) (totalCombos : Nat) : Response :=
  { status := 200,
    body := .obj [(("success"), .bool true),
      (("data"), .obj [
        (("centers"), .arr (centers.map (fun c => .str c))),
        (("services"), .arr (services.map (fun s => .str s))),
        (("dates"), .arr (targetDates.map (fun d => .num d))),
        (("week_info"), .arr (weekInfo.map (fun w =>
          .obj [(("week"), .num (w.week : Int)), (("weekName"), .str w.weekName),
                (("date"), .num w.date), (("isCurrentWeek"), .bool w.isCurrentWeek)]))),
        (("mode"), .str ("week_based")),
        (("total_combinations"), .num (totalCombos : Int)),
        (("successful_combinations"), .num 0),
        (("available_dates"), .arr []),
        (("weekly_availability"), .arr [])])] }

/-- Lines 1579-1589: the final success response (its message string is
omitted). -/
def doneResponse (providers : List Provider) (centers services : List String)
    (st : LoopState) : Response × List Int :=
  let out := assembleData providers centers services st
  ({ status := 200, body := .obj [(("success"), .bool true), (("data"), out.2)] }, out.1)

inductive Outcome where
  | invalid (r : Response)
  | noDates (r : Response)
  | noBookings (r : Response)
  | outOfFuel (st : LoopState)
  | done (r : Response) (availableDates : List Int) (st : LoopState)

def initLoopState (z : ZState) (results : List SlotResult)
    (booked : List (CDKey × String)) : LoopState :=
  { z := z, resultQueue := results, futureQueue := [], processed := [],
    pending := [], booked := booked, allResults := [], generations := 1 }

/-- The whole POST /api/slots/unified handler (lines 1004-1597):
validation, horizon filtering, the initial booking wave, the
zero-successes early return, the initial slot fetches, the discovery
loop, and the assembled response.  generations counts the initial wave
plus one per future-booking batch. -/
def runUnified (providers : List Provider) (up : Upstream) (apiKeyOk : Bool)
    (cache0 : List (CacheKey × CacheEntry)) (now : Int) (today : Int)
    (centers services : List String) (weeks : Nat) (fuel : Nat) : Outcome × ZState :=
  let z0 : ZState := { cache := cache0, now := now, bookingCalls := [], slotsCalls := [] }
  if centers = [] then (.invalid (errorResponse 400 ("centers array is required")), z0)
  else if services = [] then (.invalid (errorResponse 400 ("services array is required")), z0)
  else
    let weekInfo := getWeekDates today weeks
    let targetDates := targetDatesFor today weeks
    if targetDates = [] then
      (.noDates (errorResponse 400 ("No valid week start dates within 28-day range from today")), z0)
    else
      let pairs := prodPairs centers targetDates
      let p1 := phase1 up apiKeyOk services pairs z0
      let successfulBookings := p1.results.filter (fun r => r.bookingId.isSome)
      if successfulBookings = [] then
        (.noBookings (noBookingsResponse centers services targetDates weekInfo pairs.length), p1.z)
      else
        let out2 := phase2 up apiKeyOk successfulBookings p1.z
        let st0 := initLoopState out2.2 out2.1 p1.booked
        let stF := discLoop up apiKeyOk services fuel st0
        if stF.resultQueue = [] then
          let outR := doneResponse providers centers services stF
          (.done outR.1 outR.2 stF, stF.z)
        else (.outOfFuel stF, stF.z)

/-! ### Claim theorems: hourly aggregation and merging -/

/-- A slot carrying its time in the capitalized Time field. -/
def mkTimeSlot (av : Bool) (t : String) : Slot :=
  { Available := av, available := false, Time := some t, time := none, start_time := none }

/-- An upstream on which every operation fails. -/
def upNever : Upstream :=
  { createBooking := fun _ _ _ => .error ("boom"),
    getSlots := fun _ _ => .error ("boom") }

/-- Every booking value sitting in the cache is an unaccepted one. -/
def goodCache (z : ZState) : Prop :=
  ∀ p ∈ z.cache, ∀ b : BookingRes, p.2.data = CachedVal.booking b → bookingAccepted b = false

/-- One center with one always-successful booking and a single
available 09:00 slot. -/
def upOneSlot : Upstream :=
  { createBooking := fun _ _ _ => .ok { id := some ("B0"), error := none },
    getSlots := fun _ _ =>
      .ok { slots := [mkTimeSlot true ("09:00")], future_days := [], Error := none } }

def outcomeDoneResponse : Outcome → Option Response
  | .done r _ _ => some r
  | _ => none

/-- Number of upstream provisional-booking requests recorded for one
(centerId, date) pair. -/
def probesFor (k : CDKey) (calls : List BookingCall) : Nat :=
  calls.countP (fun c => c.centerId = k.1 ∧ c.date = k.2)

/-- The dedup bookkeeping invariant of the discovery loop: every queued
future booking is marked pending, pending keys have no recorded booking,
and pending and queued keys are duplicate-free. -/
structure EnqInv (st : LoopState) : Prop where
  fq_pending : ∀ it ∈ st.futureQueue, itemKey it ∈ st.pending
  pending_unbooked : ∀ k ∈ st.pending, k ∉ bookedKeys st
  fq_nodup : (st.futureQueue.map itemKey).Nodup
  pending_nodup : st.pending.Nodup

/-- EnqInv together with: every queued result already has its booking
recorded (initial results come from successful bookings; batch results
record theirs before being queued). -/
def LoopInv (st : LoopState) : Prop :=
  EnqInv st ∧ ∀ r ∈ st.resultQueue, resKey r ∈ bookedKeys st

/-- Upstream for the double-probe run: the initial booking for
(A, 20002) succeeds and hints date 20009; every booking for (A, 20009)
fails. -/
def upDouble : Upstream :=
  { createBooking := fun c d _ =>
      if c = ("A") ∧ d = 20002 then .ok { id := some ("X"), error := none }
      else .error ("boom"),
    getSlots := fun bid _ =>
      if bid = ("X") then
        .ok { slots := [],
              future_days := [{ day := some 20009, isAvailable := true }],
              Error := none }
      else .error ("nf") }

/-- Booking-id to next-hint-date table for the chain run: the booking of
day 20002 hints 20101, and the booking of day 20101 + k hints
20102 + k, for k < 29 — thirty hint dates, all beyond the horizon. -/
def chainPairs : List (String × Int) :=
  ((toString (20002 : Int)), 20101) ::
    (List.range 29).map (fun k => ((toString ((20101 : Int) + k)), 20102 + (k : Int)))

/-- Upstream for the chain run: every booking succeeds with the day
number as its id; slot fetches hint the next chain date. -/
def upChain : Upstream :=
  { createBooking := fun _ d _ => .ok { id := some (toString d), error := none },
    getSlots := fun bid _ =>
      .ok { slots := [],
            future_days :=
              match chainPairs.find? (fun p => p.1 = bid) with
              | some p => [{ day := some p.2, isAvailable := true }]
              | none => [],
            Error := none } }

def outcomeGenerations : Outcome → Option Nat
  | .done _ _ st => some st.generations
  | _ => none

theorem charListLe_total : ∀ as bs, charListLe as bs = true ∨ charListLe bs as = true := by
  intro as
  induction as with
  | nil => intro bs; left; rfl
  | cons a as ih =>
    intro bs
    cases bs with
    | nil => right; rfl
    | cons b bs =>
      rcases lt_trichotomy a b with h | h | h
      · left; simp [charListLe, h]
      · subst h
        rcases ih bs with h2 | h2
        · left; simp [charListLe, lt_irrefl, h2]
        · right; simp [charListLe, lt_irrefl, h2]
      · right; simp [charListLe, h]

theorem charListLe_trans :
    ∀ as bs cs, charListLe as bs = true → charListLe bs cs = true →
      charListLe as cs = true := by
  intro as
  induction as with
  | nil => intro bs cs h1 h2; rfl
  | cons a as ih =>
    intro bs cs h1 h2
    cases bs with
    | nil => exact absurd h1 (by simp [charListLe])
    | cons b bs =>
      cases cs with
      | nil => exact absurd h2 (by simp [charListLe])
      | cons c cs =>
        simp only [charListLe] at h1 h2 ⊢
        rcases lt_trichotomy a b with hab | hab | hab
        · rcases lt_trichotomy b c with hbc | hbc | hbc
          · simp [lt_trans hab hbc]
          · subst hbc; simp [hab]
          · rw [if_neg (by exact not_lt.mpr (le_of_lt hbc)), if_pos hbc] at h2
            exact absurd h2 (by simp)
        · subst hab
          rcases lt_trichotomy a c with hac | hac | hac
          · simp [hac]
          · subst hac
            rw [if_neg (lt_irrefl a), if_neg (lt_irrefl a)] at h1 h2 ⊢
            exact ih bs cs h1 h2
          · rw [if_neg (by exact not_lt.mpr (le_of_lt hac)), if_pos hac] at h2
            exact absurd h2 (by simp)
        · rw [if_neg (by exact not_lt.mpr (le_of_lt hab)), if_pos hab] at h1
          exact absurd h1 (by simp)

theorem charListLe_ne_lt :
    ∀ as bs, charListLe as bs = true → as ≠ bs → charListLt as bs = true := by
  intro as
  induction as with
  | nil =>
    intro bs h1 h2
    cases bs with
    | nil => exact absurd rfl h2
    | cons b bs => rfl
  | cons a as ih =>
    intro bs h1 h2
    cases bs with
    | nil => exact absurd h1 (by simp [charListLe])
    | cons b bs =>
      simp only [charListLe] at h1
      simp only [charListLt]
      rcases lt_trichotomy a b with hab | hab | hab
      · simp [hab]
      · subst hab
        rw [if_neg (lt_irrefl a), if_neg (lt_irrefl a)] at h1 ⊢
        refine ih bs h1 ?_
        intro hcontra
        exact h2 (by rw [hcontra])
      · rw [if_neg (by exact not_lt.mpr (le_of_lt hab)), if_pos hab] at h1
        exact absurd h1 (by simp)

theorem strLe_total (a b : String) : strLe a b = true ∨ strLe b a = true :=
  charListLe_total a.data b.data

theorem strLe_trans (a b c : String) (h1 : strLe a b = true) (h2 : strLe b c = true) :
    strLe a c = true :=
  charListLe_trans a.data b.data c.data h1 h2

theorem strLe_ne_lt (a b : String) (h : strLe a b = true) (hne : a ≠ b) :
    strLt a b = true := by
  refine charListLe_ne_lt a.data b.data h ?_
  intro hd
  exact hne (String.ext hd)

theorem insertLe_perm (le : α → α → Bool) (a : α) (l : List α) :
    (insertLe le a l).Perm (a :: l) := by
  induction l with
  | nil => simp [insertLe]
  | cons b bs ih =>
    simp only [insertLe]
    by_cases h : le a b = true
    · simp [h]
    · simp only [h]
      exact ((ih.cons b).trans (List.Perm.swap a b bs))

theorem sortLe_perm (le : α → α → Bool) (l : List α) : (sortLe le l).Perm l := by
  induction l with
  | nil => simp [sortLe]
  | cons a as ih =>
    simp only [sortLe, List.foldr]
    exact (insertLe_perm le a _).trans (ih.cons a)

theorem insertLe_pairwise (le : α → α → Bool)
    (htot : ∀ a b, le a b = true ∨ le b a = true)
    (htrans : ∀ a b c, le a b = true → le b c = true → le a c = true)
    (a : α) (l : List α) (hl : l.Pairwise (fun x y => le x y = true)) :
    (insertLe le a l).Pairwise (fun x y => le x y = true) := by
  induction l with
  | nil => simp [insertLe]
  | cons b bs ih =>
    rcases hl with _ | ⟨hb, hbs⟩
    simp only [insertLe]
    by_cases h : le a b = true
    · rw [if_pos h]
      refine List.Pairwise.cons ?_ (List.Pairwise.cons hb hbs)
      intro x hx
      rcases hx with _ | hx
      · exact h
      · exact htrans a b x h (hb x (by assumption))
    · rw [if_neg h]
      refine List.Pairwise.cons ?_ (ih hbs)
      intro x hx
      have hba : le b a = true := (htot a b).resolve_left h
      have hmem := (insertLe_perm le a bs).mem_iff.mp hx
      rcases List.mem_cons.mp hmem with rfl | hx2
      · exact hba
      · exact hb x hx2

theorem sortLe_pairwise (le : α → α → Bool)
    (htot : ∀ a b, le a b = true ∨ le b a = true)
    (htrans : ∀ a b c, le a b = true → le b c = true → le a c = true)
    (l : List α) :
    (sortLe le l).Pairwise (fun x y => le x y = true) := by
  induction l with
  | nil => simp [sortLe]
  | cons a as ih => exact insertLe_pairwise le htot htrans a _ ih

/-! ### Counting and shape lemmas for the hourly aggregation -/

theorem bucketCountAt_cons (b : HourlyBucket) (l : List HourlyBucket) (lab : String) :
    bucketCountAt (b :: l) lab =
      (if b.time = lab then b.count else 0) + bucketCountAt l lab := by
  by_cases h : b.time = lab <;> simp [bucketCountAt, List.filter_cons, h]

theorem bucketCountAt_append (l₁ l₂ : List HourlyBucket) (lab : String) :
    bucketCountAt (l₁ ++ l₂) lab = bucketCountAt l₁ lab + bucketCountAt l₂ lab := by
  simp [bucketCountAt, List.filter_append]

theorem bucketCountAt_perm {l₁ l₂ : List HourlyBucket} (h : l₁.Perm l₂) (lab : String) :
    bucketCountAt l₁ lab = bucketCountAt l₂ lab :=
  List.Perm.sum_eq ((h.filter _).map _)

theorem bucketCountAt_addToBuckets (acc : List HourlyBucket) (key : String) (s : Slot)
    (lab : String) :
    bucketCountAt (addToBuckets acc key s) lab =
      bucketCountAt acc lab + (if key = lab then 1 else 0) := by
  induction acc with
  | nil =>
    by_cases h : key = lab <;> simp [addToBuckets, bucketCountAt, List.filter_cons, h]
  | cons b rest ih =>
    simp only [addToBuckets]
    by_cases hbk : b.time = key
    · rw [if_pos hbk]
      rw [bucketCountAt_cons, bucketCountAt_cons]
      simp only [hbk]
      by_cases hkl : key = lab <;> simp [hkl] <;> omega
    · rw [if_neg hbk]
      rw [bucketCountAt_cons, bucketCountAt_cons, ih]
      omega

theorem aggAux_count (slots : List Slot) (acc : List HourlyBucket) (lab : String) :
    bucketCountAt (aggAux slots acc) lab =
      bucketCountAt acc lab + (slots.filter (fun s => slotHourKey s = some lab)).length := by
  induction slots generalizing acc with
  | nil => simp [aggAux]
  | cons s rest ih =>
    cases hk : slotHourKey s with
    | none => simp [aggAux, hk, ih, List.filter_cons]
    | some key =>
      simp only [aggAux, hk, ih, bucketCountAt_addToBuckets, List.filter_cons]
      by_cases hkl : key = lab
      · simp [hk, hkl] <;> omega
      · simp [hk, hkl] <;> omega

theorem aggregate_count (slots : List Slot) (lab : String) :
    bucketCountAt (aggregateSlotsIntoHourlyBuckets slots) lab =
      (slots.filter (fun s => slotHourKey s = some lab)).length := by
  have hp := sortLe_perm (fun a b : HourlyBucket => strLe a.time b.time) (aggAux slots [])
  rw [aggregateSlotsIntoHourlyBuckets]
  rw [bucketCountAt_perm hp lab, aggAux_count]
  simp [bucketCountAt]

theorem addToBuckets_times (acc : List HourlyBucket) (key : String) (s : Slot) :
    (addToBuckets acc key s).map (fun b => b.time) =
      if key ∈ acc.map (fun b => b.time) then acc.map (fun b => b.time)
      else acc.map (fun b => b.time) ++ [key] := by
  induction acc with
  | nil => simp [addToBuckets]
  | cons b rest ih =>
    simp only [addToBuckets]
    by_cases hbk : b.time = key
    · rw [if_pos hbk]
      simp [hbk]
    · rw [if_neg hbk]
      have hne : ¬ key = b.time := fun h => hbk h.symm
      by_cases hmem : key ∈ rest.map (fun b => b.time)
      · simp [ih, hmem, hne]
      · simp [ih, hmem, hne]

theorem aggAux_times_nodup (slots : List Slot) (acc : List HourlyBucket)
    (h : (acc.map (fun b => b.time)).Nodup) :
    ((aggAux slots acc).map (fun b => b.time)).Nodup := by
  induction slots generalizing acc with
  | nil => exact h
  | cons s rest ih =>
    cases hk : slotHourKey s with
    | none => simp only [aggAux, hk]; exact ih acc h
    | some key =>
      simp only [aggAux, hk]
      refine ih _ ?_
      rw [addToBuckets_times]
      by_cases hmem : key ∈ acc.map (fun b => b.time)
      · simpa [hmem] using h
      · simp only [hmem, if_false]
        exact List.Nodup.append h (List.nodup_singleton key)
          (by simpa [List.disjoint_singleton] using hmem)

theorem addToBuckets_mem_time {acc : List HourlyBucket} {key : String} {s : Slot}
    {b : HourlyBucket} (h : b ∈ addToBuckets acc key s) :
    b.time ∈ acc.map (fun x => x.time) ∨ b.time = key := by
  induction acc with
  | nil =>
    simp only [addToBuckets, List.mem_singleton] at h
    right; rw [h]
  | cons c rest ih =>
    simp only [addToBuckets] at h
    by_cases hck : c.time = key
    · rw [if_pos hck] at h
      rcases List.mem_cons.mp h with rfl | h2
      · right; exact hck
      · left; exact List.mem_map.mpr ⟨b, List.mem_cons_of_mem c h2, rfl⟩
    · rw [if_neg hck] at h
      rcases List.mem_cons.mp h with rfl | h2
      · left; simp
      · rcases ih h2 with h3 | h3
        · left; simp [h3]
        · right; exact h3

theorem slotHourKey_shape {s : Slot} {lab : String} (h : slotHourKey s = some lab) :
    ∃ hr : Nat, hr ≤ 23 ∧ lab = hourLabel hr := by
  unfold slotHourKey at h
  by_cases ha : (!s.Available) = true
  · rw [if_pos ha] at h; exact absurd h (by simp)
  · rw [if_neg ha] at h
    by_cases ht : slotTimeStr s = ""
    · rw [if_pos ht] at h; exact absurd h (by simp)
    · rw [if_neg ht] at h
      rcases hp : parseSlotHour (slotTimeStr s) with _ | hr
      · rw [hp] at h; exact absurd h (by simp)
      · rw [hp] at h
        have h2 : (if hr < 0 ∨ 23 < hr then none
            else some (hourLabel hr.toNat)) = some lab := h
        by_cases hb : hr < 0 ∨ 23 < hr
        · rw [if_pos hb] at h2; exact absurd h2 (by simp)
        · rw [if_neg hb] at h2
          refine ⟨hr.toNat, by omega, ?_⟩
          have := Option.some.inj h2
          rw [← this]

theorem aggAux_mem_shape (slots : List Slot) (acc : List HourlyBucket)
    (hacc : ∀ b ∈ acc, ∃ hr : Nat, hr ≤ 23 ∧ b.time = hourLabel hr) :
    ∀ b ∈ aggAux slots acc, ∃ hr : Nat, hr ≤ 23 ∧ b.time = hourLabel hr := by
  induction slots generalizing acc with
  | nil => exact hacc
  | cons s rest ih =>
    cases hk : slotHourKey s with
    | none => simp only [aggAux, hk]; exact ih acc hacc
    | some key =>
      simp only [aggAux, hk]
      refine ih _ ?_
      intro b hb
      rcases addToBuckets_mem_time hb with h2 | h2
      · rcases List.mem_map.mp h2 with ⟨c, hc, hct⟩
        rcases hacc c hc with ⟨hr, h23, hsh⟩
        exact ⟨hr, h23, by rw [← hct, hsh]⟩
      · rcases slotHourKey_shape hk with ⟨hr, h23, hsh⟩
        exact ⟨hr, h23, by rw [h2, hsh]⟩

theorem aggregate_sorted (slots : List Slot) :
    (aggregateSlotsIntoHourlyBuckets slots).Pairwise
      (fun a b => strLt a.time b.time = true) := by
  have hle := sortLe_pairwise (fun a b : HourlyBucket => strLe a.time b.time)
    (fun a b => strLe_total a.time b.time)
    (fun a b c hab hbc => strLe_trans a.time b.time c.time hab hbc)
    (aggAux slots [])
  have hperm := sortLe_perm (fun a b : HourlyBucket => strLe a.time b.time) (aggAux slots [])
  have hnd : ((aggAux slots []).map (fun b => b.time)).Nodup :=
    aggAux_times_nodup slots [] (by simp)
  have hnd2 : ((sortLe (fun a b : HourlyBucket => strLe a.time b.time) (aggAux slots [])).map
      (fun b => b.time)).Nodup := ((hperm.map _).nodup_iff).mpr hnd
  have hne : (sortLe (fun a b : HourlyBucket => strLe a.time b.time)
      (aggAux slots [])).Pairwise (fun a b => a.time ≠ b.time) :=
    List.pairwise_map.mp hnd2
  rw [aggregateSlotsIntoHourlyBuckets]
  refine (hle.and hne).imp ?_
  intro a b hab
  exact strLe_ne_lt _ _ hab.1 hab.2

theorem slotHourKey_none_of_badtime {s : Slot}
    (h : parseSlotHour (slotTimeStr s) = none ∨
        ∃ hr : Int, parseSlotHour (slotTimeStr s) = some hr ∧ (hr < 0 ∨ 23 < hr)) :
    slotHourKey s = none := by
  unfold slotHourKey
  by_cases ha : (!s.Available) = true
  · rw [if_pos ha]
  · rw [if_neg ha]
    by_cases ht : slotTimeStr s = ""
    · rw [if_pos ht]
    · rw [if_neg ht]
      rcases h with h | ⟨hr, hp, hb⟩
      · rw [h]
      · rw [hp]
        show (if hr < 0 ∨ 23 < hr then none else some (hourLabel hr.toNat)) = none
        rw [if_pos hb]

theorem aggAux_skip {s : Slot} (hk : slotHourKey s = none)
    (l₁ l₂ : List Slot) (acc : List HourlyBucket) :
    aggAux (l₁ ++ s :: l₂) acc = aggAux (l₁ ++ l₂) acc := by
  induction l₁ generalizing acc with
  | nil => simp [aggAux, hk]
  | cons a rest ih =>
    cases hk2 : slotHourKey a with
    | none => simp only [List.cons_append, aggAux, hk2]; exact ih acc
    | some key => simp only [List.cons_append, aggAux, hk2]; exact ih _

theorem aggregate_skip {s : Slot} (hk : slotHourKey s = none) (l₁ l₂ : List Slot) :
    aggregateSlotsIntoHourlyBuckets (l₁ ++ s :: l₂) =
      aggregateSlotsIntoHourlyBuckets (l₁ ++ l₂) := by
  unfold aggregateSlotsIntoHourlyBuckets
  rw [aggAux_skip hk]

theorem mergedCountAt_cons (b : MergedBucket) (l : List MergedBucket) (lab : String) :
    mergedCountAt (b :: l) lab =
      (if b.time = lab then b.count else 0) + mergedCountAt l lab := by
  by_cases h : b.time = lab <;> simp [mergedCountAt, List.filter_cons, h]

theorem mergedCountAt_perm {l₁ l₂ : List MergedBucket} (h : l₁.Perm l₂) (lab : String) :
    mergedCountAt l₁ lab = mergedCountAt l₂ lab :=
  List.Perm.sum_eq ((h.filter _).map _)

theorem mergedCountAt_addMerged (acc : List MergedBucket) (hb : HourlyBucket)
    (lab : String) :
    mergedCountAt (addMerged acc hb) lab =
      mergedCountAt acc lab + (if hb.time = lab then hb.count else 0) := by
  induction acc with
  | nil =>
    by_cases h : hb.time = lab <;> simp [addMerged, mergedCountAt, List.filter_cons, h]
  | cons m rest ih =>
    simp only [addMerged]
    by_cases hmk : m.time = hb.time
    · rw [if_pos hmk]
      rw [mergedCountAt_cons, mergedCountAt_cons]
      simp only [hmk]
      by_cases hkl : hb.time = lab <;> simp [hkl] <;> omega
    · rw [if_neg hmk]
      rw [mergedCountAt_cons, mergedCountAt_cons, ih]
      omega

theorem mergedCountAt_foldl (xs : List HourlyBucket) (acc : List MergedBucket)
    (lab : String) :
    mergedCountAt (xs.foldl addMerged acc) lab =
      mergedCountAt acc lab + bucketCountAt xs lab := by
  induction xs generalizing acc with
  | nil => simp [bucketCountAt]
  | cons x rest ih =>
    rw [List.foldl_cons, ih, mergedCountAt_addMerged, bucketCountAt_cons]
    omega

theorem merge_count (xs : List HourlyBucket) (lab : String) :
    mergedCountAt (mergeHourlySlotsAcrossCenters xs) lab = bucketCountAt xs lab := by
  have hp := sortLe_perm (fun a b : MergedBucket => strLe a.time b.time) (xs.foldl addMerged [])
  rw [mergeHourlySlotsAcrossCenters, mergedCountAt_perm hp, mergedCountAt_foldl]
  simp [mergedCountAt]

theorem addMerged_times (acc : List MergedBucket) (hb : HourlyBucket) :
    (addMerged acc hb).map (fun b => b.time) =
      if hb.time ∈ acc.map (fun b => b.time) then acc.map (fun b => b.time)
      else acc.map (fun b => b.time) ++ [hb.time] := by
  induction acc with
  | nil => simp [addMerged]
  | cons m rest ih =>
    simp only [addMerged]
    by_cases hmk : m.time = hb.time
    · rw [if_pos hmk]
      simp [hmk]
    · rw [if_neg hmk]
      have hne : ¬ hb.time = m.time := fun h => hmk h.symm
      by_cases hmem : hb.time ∈ rest.map (fun b => b.time)
      · simp [ih, hmem, hne]
      · simp [ih, hmem, hne]

theorem foldl_addMerged_nodup (xs : List HourlyBucket) (acc : List MergedBucket)
    (h : (acc.map (fun b => b.time)).Nodup) :
    ((xs.foldl addMerged acc).map (fun b => b.time)).Nodup := by
  induction xs generalizing acc with
  | nil => exact h
  | cons x rest ih =>
    rw [List.foldl_cons]
    refine ih _ ?_
    rw [addMerged_times]
    by_cases hmem : x.time ∈ acc.map (fun b => b.time)
    · simpa [hmem] using h
    · simp only [hmem, if_false]
      exact List.Nodup.append h (List.nodup_singleton x.time)
        (by simpa [List.disjoint_singleton] using hmem)

theorem merge_sorted (xs : List HourlyBucket) :
    (mergeHourlySlotsAcrossCenters xs).Pairwise
      (fun a b => strLt a.time b.time = true) := by
  have hle := sortLe_pairwise (fun a b : MergedBucket => strLe a.time b.time)
    (fun a b => strLe_total a.time b.time)
    (fun a b c hab hbc => strLe_trans a.time b.time c.time hab hbc)
    (xs.foldl addMerged [])
  have hperm := sortLe_perm (fun a b : MergedBucket => strLe a.time b.time) (xs.foldl addMerged [])
  have hnd : ((xs.foldl addMerged []).map (fun b => b.time)).Nodup :=
    foldl_addMerged_nodup xs [] (by simp)
  have hnd2 := ((hperm.map (fun b : MergedBucket => b.time)).nodup_iff).mpr hnd
  have hne : (sortLe (fun a b : MergedBucket => strLe a.time b.time)
      (xs.foldl addMerged [])).Pairwise (fun a b => a.time ≠ b.time) :=
    List.pairwise_map.mp hnd2
  rw [mergeHourlySlotsAcrossCenters]
  refine (hle.and hne).imp ?_
  intro a b hab
  exact strLe_ne_lt _ _ hab.1 hab.2

theorem makeZenotiRequest_attempts_aux (attempts : Nat → Attempt) :
    ∀ n rc, rateLimitTracker.maxRetries - rc ≤ n →
      (makeZenotiRequest attempts rc).attempts ≤ n + 1 := by
  intro n
  induction n with
  | zero =>
    intro rc hrc
    rw [makeZenotiRequest]
    cases attempts rc with
    | ok v => simp
    | fail e =>
      by_cases h429 : is429 e = true
      · simp only [h429, if_true]
        have hge : ¬ rc < rateLimitTracker.maxRetries := by omega
        rw [dif_neg hge]
      · simp only [h429]
        rw [if_neg (by simpa using h429)]
  | succ n ih =>
    intro rc hrc
    rw [makeZenotiRequest]
    cases attempts rc with
    | ok v => simp
    | fail e =>
      by_cases h429 : is429 e = true
      · simp only [h429, if_true]
        by_cases hlt : rc < rateLimitTracker.maxRetries
        · rw [dif_pos hlt]
          have := ih (rc + 1) (by omega)
          simpa using Nat.add_le_add_right this 1
        · rw [dif_neg hlt]
          simp
      · simp only [h429]
        rw [if_neg (by simpa using h429)]
        simp

theorem find_cacheSet (l : List (CacheKey × CacheEntry)) (k : CacheKey) (e : CacheEntry) :
    (cacheSet l k e).find? (fun p => p.1 = k) = some (k, e) := by
  induction l with
  | nil => simp [cacheSet]
  | cons p rest ih =>
    rcases p with ⟨k0, e0⟩
    simp only [cacheSet]
    by_cases h : k0 = k
    · rw [if_pos h]
      subst h
      simp [List.find?]
    · rw [if_neg h]
      simp [List.find?, h, ih]

theorem getCachedData_after_set (key : CacheKey) (v : CachedVal) (z : ZState) (δ : Int)
    (hδ : δ < CACHE_TTL) :
    getCachedData key { setCachedData key v z with now := z.now + δ } = some v := by
  unfold getCachedData setCachedData
  simp only [find_cacheSet]
  have : z.now + δ - z.now < CACHE_TTL := by omega
  rw [if_pos this]

theorem aggregate_shape (slots : List Slot) :
    ∀ b ∈ aggregateSlotsIntoHourlyBuckets slots, ∃ hr : Nat, hr ≤ 23 ∧ b.time = hourLabel hr := by
  intro b hb
  have hmem : b ∈ aggAux slots [] :=
    ((sortLe_perm (fun a b : HourlyBucket => strLe a.time b.time) (aggAux slots [])).mem_iff).mp hb
  exact aggAux_mem_shape slots [] (by simp) b hmem

theorem slotHourKey_none_of_unavailable {s : Slot} (h : s.Available = false) :
    slotHourKey s = none := by
  unfold slotHourKey
  simp [h]

/-- C6: for every slot list, aggregateSlotsIntoHourlyBuckets discards
slots not marked Available, groups the remaining slots by clock hour into
buckets labeled with the two-digit hour plus ":00" whose count is the
number of available slots parsed to that hour, and returns the buckets
sorted ascending by hour label; on available slots at 09:00, 09:15,
09:45 and an unavailable 09:30 slot it returns the single bucket
(09:00, count 3). -/
theorem C6_hourly_aggregation :
    (∀ slots : List Slot,
       (aggregateSlotsIntoHourlyBuckets slots).Pairwise
         (fun a b => strLt a.time b.time = true)) ∧
    (∀ slots : List Slot, ∀ b ∈ aggregateSlotsIntoHourlyBuckets slots,
       ∃ hr : Nat, hr ≤ 23 ∧ b.time = hourLabel hr) ∧
    (∀ (slots : List Slot) (lab : String),
       bucketCountAt (aggregateSlotsIntoHourlyBuckets slots) lab =
         (slots.filter (fun s => slotHourKey s = some lab)).length) ∧
    aggregateSlotsIntoHourlyBuckets
        [mkTimeSlot true ("09:00"), mkTimeSlot true ("09:15"),
         mkTimeSlot false ("09:30"), mkTimeSlot true ("09:45")] =
      [{ time := ("09:00"), available := true, count := 3,
         slots := [mkTimeSlot true ("09:00"), mkTimeSlot true ("09:15"),
                   mkTimeSlot true ("09:45")] }] :=
  ⟨aggregate_sorted, aggregate_shape, aggregate_count, by decide⟩

/-- C6 witness: the bucket produced by the concrete example has a
well-formed label, by the shape clause of C6 applied at that input. -/
theorem C6_witness :
    ∃ hr : Nat, hr ≤ 23 ∧
      ({ time := ("09:00"), available := true, count := 3,
         slots := [mkTimeSlot true ("09:00"), mkTimeSlot true ("09:15"),
                   mkTimeSlot true ("09:45")] } : HourlyBucket).time = hourLabel hr :=
  C6_hourly_aggregation.2.1
    [mkTimeSlot true ("09:00"), mkTimeSlot true ("09:15"),
     mkTimeSlot false ("09:30"), mkTimeSlot true ("09:45")] _ (by decide)

/-- C7: aggregation is total; a slot whose time is unparseable or whose
parsed hour lies outside 0-23 is dropped silently and contributes to no
bucket: removing it from any position leaves the output unchanged, and
the concrete "garbage" and hour-27 slots produce no bucket at all. -/
theorem C7_malformed_tolerance :
    (∀ (s : Slot) (l1 l2 : List Slot),
       (parseSlotHour (slotTimeStr s) = none ∨
         ∃ hr : Int, parseSlotHour (slotTimeStr s) = some hr ∧ (hr < 0 ∨ 23 < hr)) →
       aggregateSlotsIntoHourlyBuckets (l1 ++ s :: l2) =
         aggregateSlotsIntoHourlyBuckets (l1 ++ l2)) ∧
    slotHourKey (mkTimeSlot true ("garbage")) = none ∧
    slotHourKey (mkTimeSlot true ("27:00")) = none ∧
    aggregateSlotsIntoHourlyBuckets [mkTimeSlot true ("garbage"), mkTimeSlot true ("27:00")] = [] :=
  ⟨fun _ l1 l2 h => aggregate_skip (slotHourKey_none_of_badtime h) l1 l2,
   by decide, by decide, by decide⟩

/-- C7 witness: dropping the "garbage" slot from a concrete list leaves
the aggregation unchanged, by C7 applied at that input. -/
theorem C7_witness :
    aggregateSlotsIntoHourlyBuckets
        ([mkTimeSlot true ("09:00")] ++ mkTimeSlot true ("garbage") :: []) =
      aggregateSlotsIntoHourlyBuckets ([mkTimeSlot true ("09:00")] ++ []) :=
  C7_malformed_tolerance.1 (mkTimeSlot true ("garbage")) [mkTimeSlot true ("09:00")] []
    (Or.inl (by decide))

/-- C8: mergeHourlySlotsAcrossCenters applied to two bucket lists (their
concatenation, matching the flat-array call shape of the source) carries,
at every hour label, the sum of the two lists' counts at that label; the
counts are independent of the order of the two inputs; and the merged
output is sorted ascending by hour label. -/
theorem C8_merge_additivity :
    (∀ (A B : List HourlyBucket) (lab : String),
       mergedCountAt (mergeHourlySlotsAcrossCenters (A ++ B)) lab =
         bucketCountAt A lab + bucketCountAt B lab) ∧
    (∀ (A B : List HourlyBucket) (lab : String),
       mergedCountAt (mergeHourlySlotsAcrossCenters (A ++ B)) lab =
         mergedCountAt (mergeHourlySlotsAcrossCenters (B ++ A)) lab) ∧
    (∀ xs : List HourlyBucket,
       (mergeHourlySlotsAcrossCenters xs).Pairwise
         (fun a b => strLt a.time b.time = true)) := by
  refine ⟨?_, ?_, merge_sorted⟩
  · intro A B lab
    rw [merge_count, bucketCountAt_append]
  · intro A B lab
    rw [merge_count, merge_count, bucketCountAt_append, bucketCountAt_append]
    omega

/-- C10: availability is tested only through the capitalized Available
property: a slot with Available false is dropped by the aggregation and
by availableSlotsCount even when its lowercase available field is true;
while the time field accepts all three variants Time, time, start_time. -/
theorem C10_available_field_variants :
    (∀ s : Slot, s.Available = false → s.available = true →
       ∀ l1 l2 : List Slot,
         aggregateSlotsIntoHourlyBuckets (l1 ++ s :: l2) =
           aggregateSlotsIntoHourlyBuckets (l1 ++ l2) ∧
         availableSlotsCount (l1 ++ s :: l2) = availableSlotsCount (l1 ++ l2)) ∧
    (∀ (av av2 : Bool) (t : String), t ≠ "" →
       slotTimeStr { Available := av, available := av2, Time := some t,
                     time := none, start_time := none } = t ∧
       slotTimeStr { Available := av, available := av2, Time := none,
                     time := some t, start_time := none } = t ∧
       slotTimeStr { Available := av, available := av2, Time := none,
                     time := none, start_time := some t } = t) := by
  constructor
  · intro s hA _ l1 l2
    refine ⟨aggregate_skip (slotHourKey_none_of_unavailable hA) l1 l2, ?_⟩
    simp [availableSlotsCount, List.filter_append, List.filter_cons, hA]
  · intro av av2 t ht
    refine ⟨?_, ?_, ?_⟩ <;> simp [slotTimeStr, jsOrS, ht]

/-- C10 witness: a concrete slot marked available only through the
lowercase field contributes to no bucket and no count, by C10 applied at
that input. -/
theorem C10_witness :
    aggregateSlotsIntoHourlyBuckets
        ([] ++ ({ Available := false, available := true, Time := some ("09:00"),
                  time := none, start_time := none } : Slot) :: [mkTimeSlot true ("10:00")]) =
      aggregateSlotsIntoHourlyBuckets ([] ++ [mkTimeSlot true ("10:00")]) ∧
    availableSlotsCount
        ([] ++ ({ Available := false, available := true, Time := some ("09:00"),
                  time := none, start_time := none } : Slot) :: [mkTimeSlot true ("10:00")]) =
      availableSlotsCount ([] ++ [mkTimeSlot true ("10:00")]) :=
  C10_available_field_variants.1 _ rfl rfl [] [mkTimeSlot true ("10:00")]

/-! ### Claim theorems: retry policy and cache idempotence -/

/-- C4: on rate-limit (429) failures makeZenotiRequest retries at most 4
times, sleeping the schedule [1s, 2s, 5s, 10s] on attempts 1..4 when no
retry-after header is present; a parseable positive retry-after header
takes precedence over the schedule; after the 4th retry also fails with
429 the result is the rate-limit-exceeded error; a non-429 failure is
rethrown immediately with zero retries; and no call ever makes more than
5 attempts. -/
theorem C4_rate_limit_retry :
    (∀ attempts : Nat → Attempt,
       (∀ i, i ≤ 4 → ∃ m, attempts i =
          .fail { response := some { status := 429, retryAfter := none }, message := m }) →
       makeZenotiRequest attempts 0 =
         { result := .rateLimited, attempts := 5, sleeps := [1000, 2000, 5000, 10000] }) ∧
    (∀ (attempts : Nat → Attempt) (e : JsErr), attempts 0 = .fail e → is429 e = false →
       makeZenotiRequest attempts 0 = { result := .thrown e, attempts := 1, sleeps := [] }) ∧
    (∀ (rc : Nat) (e : JsErr) (r : JsResp) (s : String) (n : Int),
       e.response = some r → r.retryAfter = some s → s ≠ "" → jsParseInt s = some n →
       0 < n → sleepsFor rc e = [n * 1000]) ∧
    (∀ attempts : Nat → Attempt, (makeZenotiRequest attempts 0).attempts ≤ 5) := by
  refine ⟨?_, ?_, ?_, ?_⟩
  · intro attempts h
    obtain ⟨m0, h0⟩ := h 0 (by omega)
    obtain ⟨m1, h1⟩ := h 1 (by omega)
    obtain ⟨m2, h2⟩ := h 2 (by omega)
    obtain ⟨m3, h3⟩ := h 3 (by omega)
    obtain ⟨m4, h4⟩ := h 4 (by omega)
    rw [makeZenotiRequest, h0]
    rw [makeZenotiRequest, show (0 + 1 : Nat) = 1 from rfl, h1]
    rw [makeZenotiRequest, show (1 + 1 : Nat) = 2 from rfl, h2]
    rw [makeZenotiRequest, show (2 + 1 : Nat) = 3 from rfl, h3]
    rw [makeZenotiRequest, show (3 + 1 : Nat) = 4 from rfl, h4]
    simp [is429, rateLimitTracker, sleepsFor, actualDelay, scheduledDelay]
  · intro attempts e hA h429
    rw [makeZenotiRequest, hA]
    simp [h429]
  · intro rc e r s n hr hra hs hp hn
    simp only [sleepsFor, actualDelay, hr, hra]
    rw [if_neg hs]
    simp only [hp, Option.map]
    rw [if_pos (by omega)]
  · intro attempts
    have := makeZenotiRequest_attempts_aux attempts rateLimitTracker.maxRetries 0
      (by omega)
    simpa [rateLimitTracker] using this

/-- C4 witness: a request whose every attempt is a bare 429 failure
exhausts the schedule, by C4 applied at that input. -/
theorem C4_witness :
    makeZenotiRequest (fun _ => Attempt.fail
        { response := some { status := 429, retryAfter := none },
          message := "Request failed with status code 429" }) 0 =
      { result := .rateLimited, attempts := 5, sleeps := [1000, 2000, 5000, 10000] } :=
  C4_rate_limit_retry.1 _ (fun _ _ => ⟨_, rfl⟩)

/-- C5: probing the same (location, date, service-list) triple twice
within the TTL window: a first call that misses the cache and succeeds
upstream issues exactly one upstream request and caches its result, and
a second call δ later (0 ≤ δ < CACHE_TTL) returns the identical booking
result and leaves the state untouched — in particular it issues no
second upstream request. -/
theorem C5_probe_idempotent (up : Upstream) (c : String) (d : Int) (svc : List String)
    (z : ZState) (b : BookingRes) (δ : Int)
    (hmiss : getCachedData (CacheKey.booking c d svc) z = none)
    (hok : up.createBooking c d svc = .ok b)
    (hδ0 : 0 ≤ δ) (hδ : δ < CACHE_TTL) :
    createZenotiBooking up true c d svc z =
      (.ok b, setCachedData (CacheKey.booking c d svc) (.booking b)
        { z with bookingCalls := z.bookingCalls ++
            [{ centerId := c, date := d, services := svc }] }) ∧
    createZenotiBooking up true c d svc
        { (createZenotiBooking up true c d svc z).2 with now := z.now + δ } =
      (.ok b, { (createZenotiBooking up true c d svc z).2 with now := z.now + δ }) := by
  have hfst : createZenotiBooking up true c d svc z =
      (.ok b, setCachedData (CacheKey.booking c d svc) (.booking b)
        { z with bookingCalls := z.bookingCalls ++
            [{ centerId := c, date := d, services := svc }] }) := by
    simp only [createZenotiBooking, Bool.not_true, Bool.false_eq_true, if_false, hmiss, hok]
  refine ⟨hfst, ?_⟩
  rw [hfst]
  have hhit : getCachedData (CacheKey.booking c d svc)
      { (setCachedData (CacheKey.booking c d svc) (.booking b)
          { z with bookingCalls := z.bookingCalls ++
              [{ centerId := c, date := d, services := svc }] }) with now := z.now + δ } =
      some (CachedVal.booking b) :=
    getCachedData_after_set (CacheKey.booking c d svc) (.booking b)
      { z with bookingCalls := z.bookingCalls ++
          [{ centerId := c, date := d, services := svc }] } δ hδ
  simp only [createZenotiBooking, Bool.not_true, Bool.false_eq_true, if_false, hhit]

/-- C5 witness: a concrete double probe within the TTL, by C5 applied at
that input. -/
theorem C5_witness :
    (createZenotiBooking
        { createBooking := fun _ _ _ => .ok { id := some ("B1"), error := none },
          getSlots := fun _ _ => .error ("unused") } true ("A") 20002 [("S")]
        { cache := [], now := 0, bookingCalls := [], slotsCalls := [] }).1 =
      .ok { id := some ("B1"), error := none } ∧
    createZenotiBooking
        { createBooking := fun _ _ _ => .ok { id := some ("B1"), error := none },
          getSlots := fun _ _ => .error ("unused") } true ("A") 20002 [("S")]
        { (createZenotiBooking
            { createBooking := fun _ _ _ => .ok { id := some ("B1"), error := none },
              getSlots := fun _ _ => .error ("unused") } true ("A") 20002 [("S")]
            { cache := [], now := 0, bookingCalls := [], slotsCalls := [] }).2
          with now := 0 + 60000 } =
      (.ok { id := some ("B1"), error := none },
       { (createZenotiBooking
            { createBooking := fun _ _ _ => .ok { id := some ("B1"), error := none },
              getSlots := fun _ _ => .error ("unused") } true ("A") 20002 [("S")]
            { cache := [], now := 0, bookingCalls := [], slotsCalls := [] }).2
          with now := 0 + 60000 }) := by
  have h := C5_probe_idempotent
    { createBooking := fun _ _ _ => .ok { id := some ("B1"), error := none },
      getSlots := fun _ _ => .error ("unused") } ("A") 20002 [("S")]
    { cache := [], now := 0, bookingCalls := [], slotsCalls := [] }
    { id := some ("B1"), error := none } 60000 rfl rfl (by decide) (by decide)
  exact ⟨by rw [h.1], h.2⟩

/-! ### Claim theorems: empty-filter path and zero-success path -/

/-- C2 (amended): when the horizon filter leaves no week start dates the
endpoint stops immediately, before any network activity, with an HTTP
400 error response (success false) — not a success/empty-result
response. -/
theorem C2_empty_filter_error (providers : List Provider) (up : Upstream) (ak : Bool)
    (cache0 : List (CacheKey × CacheEntry)) (now today : Int)
    (centers services : List String) (weeks fuel : Nat)
    (hc : centers ≠ []) (hs : services ≠ [])
    (hfilter : targetDatesFor today weeks = []) :
    runUnified providers up ak cache0 now today centers services weeks fuel =
      (.noDates (errorResponse 400
          ("No valid week start dates within 28-day range from today")),
       { cache := cache0, now := now, bookingCalls := [], slotsCalls := [] }) ∧
    (errorResponse 400
        ("No valid week start dates within 28-day range from today")).status = 400 ∧
    jLookup (errorResponse 400
        ("No valid week start dates within 28-day range from today")).body ("success") =
      some (.bool false) := by
  refine ⟨?_, rfl, rfl⟩
  unfold runUnified
  rw [if_neg hc, if_neg hs]
  simp only [hfilter]
  simp

/-- C2 counterexample: with today a Monday (day number 20003) and one
requested week, the filter is empty and the endpoint answers HTTP 400
with success false and zero upstream calls — the claimed success
response does not occur. -/
theorem C2_counterexample :
    (runUnified [] upNever true [] 0 20003 [("A")] [("S")] 1 10).1 =
      .noDates
        { status := 400,
          body := .obj [(("success"), .bool false),
            (("error"), .str ("No valid week start dates within 28-day range from today"))] } ∧
    (runUnified [] upNever true [] 0 20003 [("A")] [("S")] 1 10).2.bookingCalls = [] ∧
    (runUnified [] upNever true [] 0 20003 [("A")] [("S")] 1 10).2.slotsCalls = [] :=
  ⟨rfl, rfl, rfl⟩

/-- C2 witness: the amended statement applied at the concrete Monday
input. -/
theorem C2_witness :
    runUnified [] upNever true [] 0 20003 [("A")] [("S")] 1 10 =
      (.noDates (errorResponse 400
          ("No valid week start dates within 28-day range from today")),
       { cache := [], now := 0, bookingCalls := [], slotsCalls := [] }) :=
  (C2_empty_filter_error [] upNever true [] 0 20003 [("A")] [("S")] 1 10
    (by decide) (by decide) (by decide)).1

theorem mem_cacheSet {l : List (CacheKey × CacheEntry)} {k : CacheKey} {e : CacheEntry}
    {p : CacheKey × CacheEntry} (h : p ∈ cacheSet l k e) : p ∈ l ∨ p = (k, e) := by
  induction l with
  | nil => simpa [cacheSet] using h
  | cons q rest ih =>
    rcases q with ⟨k0, e0⟩
    simp only [cacheSet] at h
    by_cases hk : k0 = k
    · rw [if_pos hk] at h
      rcases List.mem_cons.mp h with rfl | h2
      · right; rw [hk]
      · left; exact List.mem_cons_of_mem _ h2
    · rw [if_neg hk] at h
      rcases List.mem_cons.mp h with rfl | h2
      · left; exact List.mem_cons_self _ _
      · rcases ih h2 with h3 | h3
        · left; exact List.mem_cons_of_mem _ h3
        · right; exact h3

theorem getCachedData_mem {key : CacheKey} {z : ZState} {v : CachedVal}
    (h : getCachedData key z = some v) : ∃ p ∈ z.cache, p.2.data = v := by
  unfold getCachedData at h
  rcases hf : z.cache.find? (fun p => p.1 = key) with _ | p
  · simp only [hf] at h
    exact absurd h (by simp)
  · simp only [hf] at h
    by_cases ht : z.now - p.2.timestamp < CACHE_TTL
    · rw [if_pos ht] at h
      exact ⟨p, List.mem_of_find?_eq_some hf, Option.some.inj h⟩
    · rw [if_neg ht] at h; exact absurd h (by simp)

theorem createZenotiBooking_allFail (up : Upstream) (svc : List String) (c : String)
    (d : Int) (z : ZState) (hgc : goodCache z)
    (hfail : match up.createBooking c d svc with
      | .ok b => bookingAccepted b = false
      | .error _ => True) :
    (match (createZenotiBooking up true c d svc z).1 with
      | .ok b => bookingAccepted b = false
      | .error _ => True) ∧
    goodCache (createZenotiBooking up true c d svc z).2 := by
  unfold createZenotiBooking
  simp only [Bool.not_true, Bool.false_eq_true, if_false]
  rcases hcc : getCachedData (CacheKey.booking c d svc) z with _ | val
  · simp only [hcc]
    cases hb : up.createBooking c d svc with
    | error msg =>
      simp only [hb]
      exact ⟨trivial, fun p hp b2 hdata => hgc p hp b2 hdata⟩
    | ok b =>
      simp only [hb]
      constructor
      · simpa [hb] using hfail
      · intro p hp b2 hdata
        rcases mem_cacheSet hp with h2 | h2
        · exact hgc p h2 b2 hdata
        · subst h2
          have hbb : CachedVal.booking b = CachedVal.booking b2 := hdata
          cases hbb
          simpa [hb] using hfail
  · cases val with
    | booking b =>
      simp only [hcc]
      refine ⟨?_, hgc⟩
      rcases getCachedData_mem hcc with ⟨p, hp, hd⟩
      simpa using hgc p hp b hd
    | slotsData s =>
      simp only [hcc]
      cases hb : up.createBooking c d svc with
      | error msg =>
        simp only [hb]
        exact ⟨trivial, fun p hp b2 hdata => hgc p hp b2 hdata⟩
      | ok b =>
        simp only [hb]
        constructor
        · simpa [hb] using hfail
        · intro p hp b2 hdata
          rcases mem_cacheSet hp with h2 | h2
          · exact hgc p h2 b2 hdata
          · subst h2
            have hbb : CachedVal.booking b = CachedVal.booking b2 := hdata
            cases hbb
            simpa [hb] using hfail

theorem phase1_allFail_aux (up : Upstream) (svc : List String)
    (hfail : ∀ c d, match up.createBooking c d svc with
      | .ok b => bookingAccepted b = false
      | .error _ => True) :
    ∀ (pairs : List CDKey) (acc : Phase1Out),
      goodCache acc.z →
      (∀ r ∈ acc.results, r.bookingId = none) →
      ∀ r ∈ (pairs.foldl (phase1Step up true svc) acc).results, r.bookingId = none := by
  intro pairs
  induction pairs with
  | nil => intro acc _ hres; exact hres
  | cons p rest ih =>
    intro acc hgc hres
    rw [List.foldl_cons]
    have hstep := createZenotiBooking_allFail up svc p.1 p.2 acc.z hgc (hfail p.1 p.2)
    rcases hpr : createZenotiBooking up true p.1 p.2 svc acc.z with ⟨res, z1⟩
    rw [hpr] at hstep
    cases res with
    | error msg =>
      refine ih _ ?_ ?_
      · simpa [phase1Step, hpr] using hstep.2
      · intro r hr
        simp only [phase1Step, hpr] at hr
        rcases List.mem_append.mp hr with h2 | h2
        · exact hres r h2
        · simp only [List.mem_singleton] at h2
          rw [h2]
    | ok b =>
      have hacc : bookingAccepted b = false := by simpa using hstep.1
      refine ih _ ?_ ?_
      · simpa [phase1Step, hpr, hacc] using hstep.2
      · intro r hr
        simp only [phase1Step, hpr, hacc, Bool.false_eq_true, if_false] at hr
        rcases List.mem_append.mp hr with h2 | h2
        · exact hres r h2
        · simp only [List.mem_singleton] at h2
          rw [h2]

/-- C9: when every provisional-booking creation fails (no accepted
booking, on an initially empty cache), the run still answers with the
HTTP 200 success response carrying empty available dates and empty
weekly availability, rather than an error. -/
theorem C9_zero_success_empty_availability (providers : List Provider) (up : Upstream)
    (now today : Int) (centers services : List String) (weeks fuel : Nat)
    (hc : centers ≠ []) (hs : services ≠ [])
    (hfilter : targetDatesFor today weeks ≠ [])
    (hfail : ∀ c d, match up.createBooking c d services with
      | .ok b => bookingAccepted b = false
      | .error _ => True) :
    ∃ st : ZState,
      runUnified providers up true [] now today centers services weeks fuel =
        (.noBookings (noBookingsResponse centers services (targetDatesFor today weeks)
            (getWeekDates today weeks)
            (prodPairs centers (targetDatesFor today weeks)).length), st) ∧
      (noBookingsResponse centers services (targetDatesFor today weeks)
          (getWeekDates today weeks)
          (prodPairs centers (targetDatesFor today weeks)).length).status = 200 ∧
      jLookup (noBookingsResponse centers services (targetDatesFor today weeks)
          (getWeekDates today weeks)
          (prodPairs centers (targetDatesFor today weeks)).length).body ("success") =
        some (.bool true) ∧
      ∃ dataJ, jLookup (noBookingsResponse centers services (targetDatesFor today weeks)
          (getWeekDates today weeks)
          (prodPairs centers (targetDatesFor today weeks)).length).body ("data") =
            some dataJ ∧
        jLookup dataJ ("available_dates") = some (.arr []) ∧
        jLookup dataJ ("weekly_availability") = some (.arr []) := by
  refine ⟨(phase1 up true services (prodPairs centers (targetDatesFor today weeks))
      { cache := [], now := now, bookingCalls := [], slotsCalls := [] }).z,
    ?_, rfl, rfl, ⟨_, rfl, rfl, rfl⟩⟩
  have hnone : ∀ r ∈ (phase1 up true services
      (prodPairs centers (targetDatesFor today weeks))
      { cache := [], now := now, bookingCalls := [], slotsCalls := [] }).results,
      r.bookingId = none := by
    refine phase1_allFail_aux up services hfail _ _ ?_ ?_
    · intro p hp
      simp at hp
    · intro r hr
      simp at hr
  have hempty : (phase1 up true services
      (prodPairs centers (targetDatesFor today weeks))
      { cache := [], now := now, bookingCalls := [], slotsCalls := [] }).results.filter
        (fun r => r.bookingId.isSome) = [] := by
    rw [List.filter_eq_nil]
    intro r hr
    simp [hnone r hr]
  unfold runUnified
  rw [if_neg hc, if_neg hs, if_neg hfilter]
  simp only [hempty]
  simp

/-- C9 witness: the statement applied at a concrete all-failing
upstream. -/
theorem C9_witness :
    ∃ st : ZState,
      runUnified [] upNever true [] 0 20002 [("A")] [("S")] 1 5 =
        (.noBookings (noBookingsResponse [("A")] [("S")] (targetDatesFor 20002 1)
            (getWeekDates 20002 1)
            (prodPairs [("A")] (targetDatesFor 20002 1)).length), st) ∧
      (noBookingsResponse [("A")] [("S")] (targetDatesFor 20002 1)
          (getWeekDates 20002 1)
          (prodPairs [("A")] (targetDatesFor 20002 1)).length).status = 200 ∧
      jLookup (noBookingsResponse [("A")] [("S")] (targetDatesFor 20002 1)
          (getWeekDates 20002 1)
          (prodPairs [("A")] (targetDatesFor 20002 1)).length).body ("success") =
        some (.bool true) ∧
      ∃ dataJ, jLookup (noBookingsResponse [("A")] [("S")] (targetDatesFor 20002 1)
          (getWeekDates 20002 1)
          (prodPairs [("A")] (targetDatesFor 20002 1)).length).body ("data") =
            some dataJ ∧
        jLookup dataJ ("available_dates") = some (.arr []) ∧
        jLookup dataJ ("weekly_availability") = some (.arr []) :=
  C9_zero_success_empty_availability [] upNever 0 20002 [("A")] [("S")] 1 5
    (by decide) (by decide) (by decide) (fun _ _ => trivial)

/-! ### Claim theorems: the shape of the final unified response -/

theorem sbdSet_keys (m : List (Int × List (String × CenterDateEntry))) (d : Int)
    (c : String) (e : CenterDateEntry) :
    (sbdSet m d c e).map (fun p => p.1) =
      if d ∈ m.map (fun p => p.1) then m.map (fun p => p.1)
      else m.map (fun p => p.1) ++ [d] := by
  induction m with
  | nil => simp [sbdSet]
  | cons q rest ih =>
    rcases q with ⟨d0, inner⟩
    simp only [sbdSet]
    by_cases hd : d0 = d
    · rw [if_pos hd]
      simp [hd]
    · rw [if_neg hd]
      have hne : ¬ d = d0 := fun h => hd h.symm
      by_cases hmem : d ∈ rest.map (fun p => p.1)
      · simp [ih, hmem, hne]
      · simp [ih, hmem, hne]

theorem buildSlotsByDate_keys_nodup_aux :
    ∀ (rs : List SlotResult) (acc : List (Int × List (String × CenterDateEntry))),
      ((acc.map (fun p => p.1)).Nodup) →
      (((rs.foldl (fun m r => sbdSet m r.date r.centerId (entryOf r)) acc)).map
        (fun p => p.1)).Nodup := by
  intro rs
  induction rs with
  | nil => intro acc h; exact h
  | cons r rest ih =>
    intro acc h
    rw [List.foldl_cons]
    refine ih _ ?_
    rw [sbdSet_keys]
    by_cases hmem : r.date ∈ acc.map (fun p => p.1)
    · simpa [hmem] using h
    · simp only [hmem, if_false]
      exact List.Nodup.append h (List.nodup_singleton r.date)
        (by simpa [List.disjoint_singleton] using hmem)

theorem buildSlotsByDate_keys_nodup (rs : List SlotResult) :
    ((buildSlotsByDate rs).map (fun p => p.1)).Nodup :=
  buildSlotsByDate_keys_nodup_aux rs [] (by simp)

theorem sortLe_int_sorted_lt (l : List Int) (hnd : l.Nodup) :
    (sortLe (fun a b : Int => a ≤ b) l).Pairwise (fun a b => a < b) := by
  have hle := sortLe_pairwise (fun a b : Int => a ≤ b)
    (fun a b => by
      rcases le_total a b with h | h
      · left; simpa using h
      · right; simpa using h)
    (fun a b c hab hbc => by
      simp only [decide_eq_true_eq] at hab hbc ⊢
      omega) l
  have hperm := sortLe_perm (fun a b : Int => a ≤ b) l
  have hnd2 : (sortLe (fun a b : Int => a ≤ b) l).Nodup := hperm.nodup_iff.mpr hnd
  refine (hle.and hnd2).imp ?_
  intro a b hab
  exact lt_of_le_of_ne (by simpa using hab.1) hab.2

theorem pairwise_fst_of_base {β : Type} (l : List Int)
    (hl : l.Pairwise (fun a b => a < b)) (F : Int → β) (fst : β → Int)
    (hf : ∀ d, fst (F d) = d) (p : β → Bool) :
    (((l.map F).filter p).map fst).Pairwise (fun a b => a < b) := by
  have h1 : (l.map F).Pairwise (fun x y => fst x < fst y) := by
    rw [List.pairwise_map]
    refine hl.imp ?_
    intro a b h
    rw [hf, hf]
    exact h
  have h2 := h1.filter p
  rw [List.pairwise_map]
  exact h2

theorem assembleData_avail_sorted (providers : List Provider)
    (centers services : List String) (st : LoopState) :
    (assembleData providers centers services st).1.Pairwise (fun a b => a < b) := by
  unfold assembleData
  exact pairwise_fst_of_base _
    (sortLe_int_sorted_lt _ (buildSlotsByDate_keys_nodup st.allResults)) _ _
    (fun d => rfl) _

/-- C3 (amended): whenever the unified endpoint completes its discovery
run (at least one successful booking, enough fuel), the response is the
HTTP 200 success envelope whose data object carries date_availability,
available_dates (which lists the run's availableDates, sorted strictly
ascending) and processing_time_ms — but no weekly-availability field
under either spelling: weeklyAvailability is only present (empty) in the
zero-successful-bookings response. -/
theorem C3_done_response_fields (providers : List Provider) (up : Upstream) (ak : Bool)
    (cache0 : List (CacheKey × CacheEntry)) (now today : Int)
    (centers services : List String) (weeks fuel : Nat)
    (r : Response) (avail : List Int) (stF : LoopState) (z : ZState)
    (h : runUnified providers up ak cache0 now today centers services weeks fuel =
      (.done r avail stF, z)) :
    r.status = 200 ∧
    jLookup r.body ("success") = some (.bool true) ∧
    jLookup r.body ("data") = some (assembleData providers centers services stF).2 ∧
    (jLookup (assembleData providers centers services stF).2 ("date_availability")).isSome = true ∧
    jLookup (assembleData providers centers services stF).2 ("available_dates") =
      some (.arr (avail.map JVal.num)) ∧
    (jLookup (assembleData providers centers services stF).2 ("processing_time_ms")).isSome = true ∧
    jLookup (assembleData providers centers services stF).2 ("weekly_availability") = none ∧
    jLookup (assembleData providers centers services stF).2 ("weeklyAvailability") = none ∧
    avail.Pairwise (fun a b => a < b) := by
  unfold runUnified at h
  simp only [] at h
  split at h
  · simp at h
  · split at h
    · simp at h
    · split at h
      · simp at h
      · split at h
        · simp at h
        · split at h
          · simp only [Prod.mk.injEq, Outcome.done.injEq] at h
            obtain ⟨⟨hr, hav, hst⟩, hz⟩ := h
            subst hst
            subst hr
            subst hav
            exact ⟨rfl, rfl, rfl, rfl, rfl, rfl, rfl, rfl,
              assembleData_avail_sorted providers centers services _⟩
          · simp at h

/-- C3 counterexample: a successful discover run (one location, one date,
one available slot) completes with a success response whose data object
has no weekly-availability field under either spelling, refuting the
claim that every successful result contains weeklyAvailability. -/
theorem C3_counterexample :
    (outcomeDoneResponse (runUnified [{ provider_id := ("A"), priority := some 1 }]
        upOneSlot true [] 0 20002 [("A")] [("S")] 1 10).1).isSome = true ∧
    ((outcomeDoneResponse (runUnified [{ provider_id := ("A"), priority := some 1 }]
        upOneSlot true [] 0 20002 [("A")] [("S")] 1 10).1).bind
      (fun r => jLookup r.body ("data"))).isSome = true ∧
    (((outcomeDoneResponse (runUnified [{ provider_id := ("A"), priority := some 1 }]
        upOneSlot true [] 0 20002 [("A")] [("S")] 1 10).1).bind
      (fun r => jLookup r.body ("data"))).bind
        (fun d => jLookup d ("weekly_availability"))) = none ∧
    (((outcomeDoneResponse (runUnified [{ provider_id := ("A"), priority := some 1 }]
        upOneSlot true [] 0 20002 [("A")] [("S")] 1 10).1).bind
      (fun r => jLookup r.body ("data"))).bind
        (fun d => jLookup d ("weeklyAvailability"))) = none :=
  ⟨rfl, rfl, rfl, rfl⟩

/-- C3 witness: the amended statement applied to the concrete successful
run. -/
theorem C3_witness :
    ∃ (r : Response) (avail : List Int) (stF : LoopState) (z : ZState),
      runUnified [{ provider_id := ("A"), priority := some 1 }]
          upOneSlot true [] 0 20002 [("A")] [("S")] 1 10 = (.done r avail stF, z) ∧
      r.status = 200 ∧
      jLookup (assembleData [{ provider_id := ("A"), priority := some 1 }]
          [("A")] [("S")] stF).2 ("weekly_availability") = none ∧
      avail.Pairwise (fun a b => a < b) := by
  refine ⟨_, _, _, _, rfl, ?_, ?_, ?_⟩
  · exact (C3_done_response_fields [{ provider_id := ("A"), priority := some 1 }]
      upOneSlot true [] 0 20002 [("A")] [("S")] 1 10 _ _ _ _ rfl).1
  · exact (C3_done_response_fields [{ provider_id := ("A"), priority := some 1 }]
      upOneSlot true [] 0 20002 [("A")] [("S")] 1 10 _ _ _ _ rfl).2.2.2.2.2.2.1
  · exact (C3_done_response_fields [{ provider_id := ("A"), priority := some 1 }]
      upOneSlot true [] 0 20002 [("A")] [("S")] 1 10 _ _ _ _ rfl).2.2.2.2.2.2.2.2

/-! ### Claim C1: probe dedup machinery -/

theorem probesFor_append (k : CDKey) (l1 l2 : List BookingCall) :
    probesFor k (l1 ++ l2) = probesFor k l1 + probesFor k l2 := by
  simp [probesFor, List.countP_append]

theorem probesFor_single (k : CDKey) (c : BookingCall) :
    probesFor k [c] = if c.centerId = k.1 ∧ c.date = k.2 then 1 else 0 := by
  by_cases h : c.centerId = k.1 ∧ c.date = k.2 <;> simp [probesFor, List.countP_cons, h]

theorem bookedSet_keys_iff (m : List (CDKey × String)) (k : CDKey) (v : String)
    (k2 : CDKey) :
    k2 ∈ (bookedSet m k v).map (fun p => p.1) ↔
      k2 ∈ m.map (fun p => p.1) ∨ k2 = k := by
  induction m with
  | nil => simp [bookedSet]
  | cons q rest ih =>
    rcases q with ⟨k0, v0⟩
    simp only [bookedSet]
    by_cases hk : k0 = k
    · rw [if_pos hk]
      subst hk
      simp only [List.map_cons, List.mem_cons]
      constructor
      · intro h
        rcases h with h | h
        · right; rw [h]
        · left; right; exact h
      · intro h
        rcases h with h | h
        · rcases h with h | h
          · left; exact h
          · right; exact h
        · left; rw [h]
    · rw [if_neg hk]
      simp only [List.map_cons, List.mem_cons, ih]
      tauto

theorem createZenotiBooking_probes_ne (up : Upstream) (ak : Bool) (c : String) (d : Int)
    (svc : List String) (z : ZState) (k : CDKey) (hk : ¬(k.1 = c ∧ k.2 = d)) :
    probesFor k (createZenotiBooking up ak c d svc z).2.bookingCalls =
      probesFor k z.bookingCalls := by
  unfold createZenotiBooking
  by_cases hak : (!ak) = true
  · rw [if_pos hak]
  · rw [if_neg hak]
    rcases hcc : getCachedData (CacheKey.booking c d svc) z with _ | val
    · simp only [hcc]
      cases hb : up.createBooking c d svc with
      | error msg =>
        simp only [hb, setCachedData]
        rw [probesFor_append, probesFor_single]
        rw [if_neg (by
          intro hcon
          exact hk ⟨hcon.1.symm, hcon.2.symm⟩)]
        omega
      | ok b =>
        simp only [hb, setCachedData]
        rw [probesFor_append, probesFor_single]
        rw [if_neg (by
          intro hcon
          exact hk ⟨hcon.1.symm, hcon.2.symm⟩)]
        omega
    · cases val with
      | booking b => simp only [hcc]
      | slotsData s =>
        simp only [hcc]
        cases hb : up.createBooking c d svc with
        | error msg =>
          simp only [hb, setCachedData]
          rw [probesFor_append, probesFor_single]
          rw [if_neg (by
            intro hcon
            exact hk ⟨hcon.1.symm, hcon.2.symm⟩)]
          omega
        | ok b =>
          simp only [hb, setCachedData]
          rw [probesFor_append, probesFor_single]
          rw [if_neg (by
            intro hcon
            exact hk ⟨hcon.1.symm, hcon.2.symm⟩)]
          omega

theorem createZenotiBooking_probes_le (up : Upstream) (ak : Bool) (c : String) (d : Int)
    (svc : List String) (z : ZState) (k : CDKey) :
    probesFor k (createZenotiBooking up ak c d svc z).2.bookingCalls ≤
      probesFor k z.bookingCalls + 1 := by
  unfold createZenotiBooking
  by_cases hak : (!ak) = true
  · rw [if_pos hak]
    exact Nat.le_succ _
  · rw [if_neg hak]
    rcases hcc : getCachedData (CacheKey.booking c d svc) z with _ | val
    · simp only [hcc]
      cases hb : up.createBooking c d svc with
      | error msg =>
        simp only [hb, setCachedData]
        rw [probesFor_append, probesFor_single]
        split <;> omega
      | ok b =>
        simp only [hb, setCachedData]
        rw [probesFor_append, probesFor_single]
        split <;> omega
    · cases val with
      | booking b => simp only [hcc]; omega
      | slotsData s =>
        simp only [hcc]
        cases hb : up.createBooking c d svc with
        | error msg =>
          simp only [hb, setCachedData]
          rw [probesFor_append, probesFor_single]
          split <;> omega
        | ok b =>
          simp only [hb, setCachedData]
          rw [probesFor_append, probesFor_single]
          split <;> omega

theorem fetchZenotiSlots_bookingCalls (up : Upstream) (ak : Bool) (bid : String)
    (fut : Bool) (z : ZState) :
    (fetchZenotiSlots up ak bid fut z).2.bookingCalls = z.bookingCalls := by
  unfold fetchZenotiSlots
  by_cases hak : (!ak) = true
  · rw [if_pos hak]
  · rw [if_neg hak]
    rcases hcc : getCachedData (CacheKey.slots bid fut) z with _ | val
    · simp only [hcc]
      cases hb : up.getSlots bid fut with
      | error msg => simp [hb, setCachedData]
      | ok s => simp [hb, setCachedData]
    · cases val with
      | booking b =>
        simp only [hcc]
        cases hb : up.getSlots bid fut with
        | error msg => simp [hb, setCachedData]
        | ok s => simp [hb, setCachedData]
      | slotsData s => simp only [hcc]

theorem countP_key_le_one {l : List CDKey} (h : l.Nodup) (k : CDKey) :
    l.countP (fun p => p = k) ≤ 1 := by
  induction l with
  | nil => simp
  | cons a rest ih =>
    rcases h with _ | ⟨ha, hrest⟩
    rw [List.countP_cons]
    by_cases hak : a = k
    · have hzero : rest.countP (fun p => p = k) = 0 := by
        rw [List.countP_eq_zero]
        intro p hp
        simp only [decide_eq_true_eq]
        intro hpk
        exact (ha p hp) (by rw [hak, ← hpk])
      simp [hak, hzero]
    · simpa [hak] using ih hrest

theorem prodPairs_nodup {centers : List String} {dates : List Int}
    (hc : centers.Nodup) (hd : dates.Nodup) : (prodPairs centers dates).Nodup := by
  induction centers with
  | nil => simp [prodPairs]
  | cons c rest ih =>
    rcases hc with _ | ⟨hcr, hrest⟩
    unfold prodPairs
    simp only [List.map_cons, List.flatten_cons]
    refine List.Nodup.append ?_ (ih hrest) ?_
    · exact hd.map (fun a b h => by
        have := congrArg Prod.snd h
        simpa using this)
    · intro p hp hp2
      rcases List.mem_map.mp hp with ⟨d, _, hd2⟩
      rcases List.mem_flatten.mp hp2 with ⟨inner, hinner, hpin⟩
      rcases List.mem_map.mp hinner with ⟨c2, hc2, hinner2⟩
      rw [← hinner2] at hpin
      rcases List.mem_map.mp hpin with ⟨d2, _, hd3⟩
      have h1 : p.1 = c := by rw [← hd2]
      have h2 : p.1 = c2 := by rw [← hd3]
      exact (hcr c2 hc2) (by rw [← h1, h2])

theorem phase1_probes_aux (up : Upstream) (ak : Bool) (svc : List String) (k : CDKey) :
    ∀ (pairs : List CDKey) (acc : Phase1Out),
      probesFor k (pairs.foldl (phase1Step up ak svc) acc).z.bookingCalls ≤
        probesFor k acc.z.bookingCalls + pairs.countP (fun p => p = k) := by
  intro pairs
  induction pairs with
  | nil => intro acc; simp
  | cons p rest ih =>
    intro acc
    rw [List.foldl_cons, List.countP_cons]
    have hstep : probesFor k (phase1Step up ak svc acc p).z.bookingCalls ≤
        probesFor k acc.z.bookingCalls + (if p = k then 1 else 0) := by
      unfold phase1Step
      rcases hpr : createZenotiBooking up ak p.1 p.2 svc acc.z with ⟨res, z1⟩
      have hle := createZenotiBooking_probes_le up ak p.1 p.2 svc acc.z k
      rw [hpr] at hle
      by_cases hpk : p = k
      · subst hpk
        cases res with
        | error msg => simpa using hle
        | ok b =>
          by_cases hacc2 : bookingAccepted b = true
          · simpa [hacc2] using hle
          · simp only [hacc2, Bool.false_eq_true, if_false]
            simpa using hle
      · have hne := createZenotiBooking_probes_ne up ak p.1 p.2 svc acc.z k
          (by
            intro hcon
            exact hpk (by
              rcases k with ⟨k1, k2⟩
              rcases p with ⟨p1, p2⟩
              simp only at hcon
              rw [Prod.mk.injEq]
              exact ⟨hcon.1.symm, hcon.2.symm⟩))
        rw [hpr] at hne
        cases res with
        | error msg => simp [hne, hpk]
        | ok b =>
          by_cases hacc2 : bookingAccepted b = true
          · simp [hacc2, hne, hpk]
          · simp [hacc2, hne, hpk]
    have hih := ih (phase1Step up ak svc acc p)
    by_cases hpk : p = k
    · rw [if_pos (by simp [hpk])]
      rw [if_pos hpk] at hstep
      omega
    · rw [if_neg (by simp [hpk])]
      rw [if_neg hpk] at hstep
      omega

theorem enqueueFutureBooking_fields (st : LoopState) (c : String) (srcB : Option String)
    (d : Int) :
    (enqueueFutureBooking st c srcB d).z = st.z ∧
    (enqueueFutureBooking st c srcB d).booked = st.booked ∧
    (enqueueFutureBooking st c srcB d).processed = st.processed ∧
    (enqueueFutureBooking st c srcB d).resultQueue = st.resultQueue ∧
    (enqueueFutureBooking st c srcB d).allResults = st.allResults ∧
    (enqueueFutureBooking st c srcB d).generations = st.generations := by
  unfold enqueueFutureBooking
  split <;> exact ⟨rfl, rfl, rfl, rfl, rfl, rfl⟩

theorem enqueueFutureBooking_inv (st : LoopState) (c : String) (srcB : Option String)
    (d : Int) (h : EnqInv st) : EnqInv (enqueueFutureBooking st c srcB d) := by
  unfold enqueueFutureBooking
  split
  · exact h
  · rename_i hguard
    push_neg at hguard
    obtain ⟨hg1, hg2, hg3⟩ := hguard
    refine ⟨?_, ?_, ?_, ?_⟩
    · intro it hit
      simp only [List.mem_append] at hit
      rcases hit with hit | hit
      · exact List.mem_append_left _ (h.fq_pending it hit)
      · simp only [List.mem_singleton] at hit
        subst hit
        exact List.mem_append_right _ (by simp [itemKey])
    · intro k hk
      simp only [List.mem_append] at hk
      rcases hk with hk | hk
      · exact h.pending_unbooked k hk
      · simp only [List.mem_singleton] at hk
        subst hk
        exact hg3
    · rw [List.map_append]
      refine List.Nodup.append h.fq_nodup (by simp) ?_
      intro x hx hx2
      simp only [List.map_cons, List.map_nil, List.mem_singleton] at hx2
      rcases List.mem_map.mp hx with ⟨it, hit, hkey⟩
      apply hg2
      have hx3 : x = (c, d) := hx2
      rw [hx3] at hkey
      rw [← hkey]
      exact h.fq_pending it hit
    · exact List.Nodup.append h.pending_nodup (List.nodup_singleton _)
        (by simpa [List.disjoint_singleton] using hg2)

theorem enqueue_fold_inv (c : String) (srcB : Option String) :
    ∀ (ds : List Int) (st : LoopState), EnqInv st →
      EnqInv (ds.foldl (fun s d => enqueueFutureBooking s c srcB d) st) ∧
      (ds.foldl (fun s d => enqueueFutureBooking s c srcB d) st).z = st.z ∧
      (ds.foldl (fun s d => enqueueFutureBooking s c srcB d) st).booked = st.booked ∧
      (ds.foldl (fun s d => enqueueFutureBooking s c srcB d) st).resultQueue =
        st.resultQueue := by
  intro ds
  induction ds with
  | nil => intro st h; exact ⟨h, rfl, rfl, rfl⟩
  | cons d0 rest ih =>
    intro st h
    rw [List.foldl_cons]
    have hone := enqueueFutureBooking_inv st c srcB d0 h
    have hfields := enqueueFutureBooking_fields st c srcB d0
    obtain ⟨hinv, hz, hb, hq⟩ := ih (enqueueFutureBooking st c srcB d0) hone
    exact ⟨hinv, by rw [hz, hfields.1], by rw [hb, hfields.2.1],
      by rw [hq, hfields.2.2.2.1]⟩

theorem setErase_subset {l : List CDKey} {k k2 : CDKey} (h : k2 ∈ setErase l k) :
    k2 ∈ l ∧ k2 ≠ k := by
  unfold setErase at h
  have := List.mem_filter.mp h
  refine ⟨this.1, ?_⟩
  simpa using this.2

theorem setErase_nodup {l : List CDKey} (h : l.Nodup) (k : CDKey) :
    (setErase l k).Nodup := h.filter _

theorem setErase_mem {l : List CDKey} {k k2 : CDKey} (h2 : k2 ∈ l) (hne : k2 ≠ k) :
    k2 ∈ setErase l k := by
  unfold setErase
  exact List.mem_filter.mpr ⟨h2, by simpa using hne⟩

theorem processResult_spec (st : LoopState) (r : SlotResult)
    (h : EnqInv st) (hr : resKey r ∈ bookedKeys st) :
    EnqInv (processResult st r) ∧
    (processResult st r).z = st.z ∧
    (processResult st r).resultQueue = st.resultQueue ∧
    (∀ k, k ∈ bookedKeys (processResult st r) ↔ k ∈ bookedKeys st) := by
  unfold processResult
  set st1 : LoopState := { st with
    allResults := st.allResults ++ [r],
    processed := setInsert st.processed (resKey r),
    pending := setErase st.pending (resKey r) } with hst1
  have hinv1 : EnqInv st1 := by
    refine ⟨?_, ?_, h.fq_nodup, setErase_nodup h.pending_nodup _⟩
    · intro it hit
      have hp := h.fq_pending it hit
      refine setErase_mem hp ?_
      intro heq
      exact (h.pending_unbooked _ hp) (heq ▸ hr)
    · intro k hk
      exact h.pending_unbooked k (setErase_subset hk).1
  set st2 : LoopState :=
    if truthyOpt r.bookingId then
      { st1 with booked := bookedSet st1.booked (resKey r) (r.bookingId.getD "") }
    else st1 with hst2
  have hbk2 : ∀ k, k ∈ bookedKeys st2 ↔ k ∈ bookedKeys st := by
    intro k
    rw [hst2]
    split
    · simp only [bookedKeys]
      rw [bookedSet_keys_iff]
      constructor
      · intro hh
        rcases hh with hh | hh
        · exact hh
        · exact hh ▸ hr
      · intro hh
        exact Or.inl hh
    · exact Iff.rfl
  have hinv2 : EnqInv st2 := by
    rw [hst2]
    split
    · refine ⟨hinv1.fq_pending, ?_, hinv1.fq_nodup, hinv1.pending_nodup⟩
      intro k hk
      intro hcon
      have : k ∈ bookedKeys st := by
        have := (bookedSet_keys_iff st1.booked (resKey r) (r.bookingId.getD "") k).mp hcon
        rcases this with hh | hh
        · exact hh
        · exact hh ▸ hr
      exact (hinv1.pending_unbooked k hk) this
    · exact hinv1
  have hz2 : st2.z = st.z := by
    rw [hst2]; split <;> rfl
  have hq2 : st2.resultQueue = st.resultQueue := by
    rw [hst2]; split <;> rfl
  obtain ⟨hinvF, hzF, hbF, hqF⟩ :=
    enqueue_fold_inv r.centerId r.bookingId (futureAvailableDates r.futureDays) st2 hinv2
  refine ⟨hinvF, by rw [hzF, hz2], by rw [hqF, hq2], ?_⟩
  intro k
  simp only [bookedKeys, hbF]
  exact hbk2 k

theorem key_ne_components {k : CDKey} {c : String} {d : Int} (hne : k ≠ (c, d)) :
    ¬(k.1 = c ∧ k.2 = d) := by
  rcases k with ⟨k1, k2⟩
  intro hcon
  have h1 : k1 = c := hcon.1
  have h2 : k2 = d := hcon.2
  subst h1
  subst h2
  exact hne rfl

theorem processFutureItem_spec (up : Upstream) (ak : Bool) (services : List String)
    (st : LoopState) (it : FutureItem) (H4 : st.pending.Nodup) :
    (∀ k, k ∈ bookedKeys st → k ∈ bookedKeys (processFutureItem up ak services st it).1) ∧
    (∀ k, k ∈ bookedKeys (processFutureItem up ak services st it).1 →
        k ∈ bookedKeys st ∨ k = itemKey it) ∧
    (∀ k, k ≠ itemKey it →
        probesFor k (processFutureItem up ak services st it).1.z.bookingCalls =
          probesFor k st.z.bookingCalls) ∧
    (∀ r ∈ (processFutureItem up ak services st it).2.toList,
        resKey r ∈ bookedKeys (processFutureItem up ak services st it).1) ∧
    (∀ k ∈ (processFutureItem up ak services st it).1.pending,
        k ∈ st.pending ∧ k ≠ itemKey it) ∧
    (processFutureItem up ak services st it).1.pending.Nodup ∧
    (processFutureItem up ak services st it).1.futureQueue = st.futureQueue ∧
    (processFutureItem up ak services st it).1.resultQueue = st.resultQueue := by
  have hprobe : ∀ k : CDKey, k ≠ itemKey it →
      probesFor k (createZenotiBooking up ak it.centerId it.date services st.z).2.bookingCalls =
        probesFor k st.z.bookingCalls := by
    intro k hk
    exact createZenotiBooking_probes_ne up ak it.centerId it.date services st.z k
      (key_ne_components hk)
  unfold processFutureItem
  rcases hcr : createZenotiBooking up ak it.centerId it.date services st.z with ⟨res, z1⟩
  rw [hcr] at hprobe
  cases res with
  | error msg =>
    simp only [hcr]
    refine ⟨fun k hk => hk, fun k hk => Or.inl hk, fun k hk => hprobe k hk, ?_, ?_, ?_, by trivial, by trivial⟩
    · intro r hr
      simp at hr
    · intro k hk
      exact setErase_subset hk
    · exact setErase_nodup H4 _
  | ok b =>
    simp only [hcr]
    by_cases hid : (!truthyOpt b.id) = true
    · rw [if_pos hid]
      refine ⟨fun k hk => hk, fun k hk => Or.inl hk, fun k hk => hprobe k hk, ?_, ?_, ?_, by trivial, by trivial⟩
      · intro r hr
        simp at hr
      · intro k hk
        exact setErase_subset hk
      · exact setErase_nodup H4 _
    · rw [if_neg hid]
      rcases hf : fetchZenotiSlots up ak (b.id.getD "") true z1 with ⟨fres, z2⟩
      have hfz : z2.bookingCalls = z1.bookingCalls := by
        have := fetchZenotiSlots_bookingCalls up ak (b.id.getD "") true z1
        rw [hf] at this
        exact this
      have hbset : ∀ k, k ∈ (bookedSet st.booked (itemKey it) (b.id.getD "")).map
          (fun p => p.1) ↔ k ∈ bookedKeys st ∨ k = itemKey it :=
        fun k => bookedSet_keys_iff st.booked (itemKey it) (b.id.getD "") k
      cases fres with
      | error msg =>
        simp only [hf]
        refine ⟨?_, ?_, ?_, ?_, ?_, ?_, by trivial, by trivial⟩
        · intro k hk
          exact (hbset k).mpr (Or.inl hk)
        · intro k hk
          exact (hbset k).mp hk
        · intro k hk
          rw [hfz]
          exact hprobe k hk
        · intro r hr
          simp at hr
        · intro k hk
          exact setErase_subset hk
        · exact setErase_nodup H4 _
      | ok sd =>
        simp only [hf]
        refine ⟨?_, ?_, ?_, ?_, ?_, ?_, by trivial, by trivial⟩
        · intro k hk
          exact (hbset k).mpr (Or.inl hk)
        · intro k hk
          exact (hbset k).mp hk
        · intro k hk
          rw [hfz]
          exact hprobe k hk
        · intro r hr
          simp only [Option.toList_some, List.mem_singleton] at hr
          subst hr
          exact (hbset _).mpr (Or.inr rfl)
        · intro k hk
          exact setErase_subset hk
        · exact setErase_nodup H4 _

theorem runBatch_spec (up : Upstream) (ak : Bool) (services : List String) :
    ∀ (items : List FutureItem) (st : LoopState) (acc : List SlotResult),
      (∀ it ∈ items, itemKey it ∉ bookedKeys st) →
      ((items.map itemKey).Nodup) →
      st.pending.Nodup →
      (∀ r ∈ acc, resKey r ∈ bookedKeys st) →
      (∀ k ∈ st.pending, k ∉ bookedKeys st) →
      (∀ k, k ∈ bookedKeys st →
        k ∈ bookedKeys (items.foldl (fun a it =>
          ((processFutureItem up ak services a.1 it).1,
           a.2 ++ (processFutureItem up ak services a.1 it).2.toList)) (st, acc)).1) ∧
      (∀ k, k ∈ bookedKeys st →
        probesFor k (items.foldl (fun a it =>
          ((processFutureItem up ak services a.1 it).1,
           a.2 ++ (processFutureItem up ak services a.1 it).2.toList)) (st, acc)).1.z.bookingCalls =
          probesFor k st.z.bookingCalls) ∧
      (∀ r ∈ (items.foldl (fun a it =>
          ((processFutureItem up ak services a.1 it).1,
           a.2 ++ (processFutureItem up ak services a.1 it).2.toList)) (st, acc)).2,
        resKey r ∈ bookedKeys (items.foldl (fun a it =>
          ((processFutureItem up ak services a.1 it).1,
           a.2 ++ (processFutureItem up ak services a.1 it).2.toList)) (st, acc)).1) ∧
      (∀ k ∈ (items.foldl (fun a it =>
          ((processFutureItem up ak services a.1 it).1,
           a.2 ++ (processFutureItem up ak services a.1 it).2.toList)) (st, acc)).1.pending,
        k ∉ bookedKeys (items.foldl (fun a it =>
          ((processFutureItem up ak services a.1 it).1,
           a.2 ++ (processFutureItem up ak services a.1 it).2.toList)) (st, acc)).1) ∧
      (items.foldl (fun a it =>
          ((processFutureItem up ak services a.1 it).1,
           a.2 ++ (processFutureItem up ak services a.1 it).2.toList)) (st, acc)).1.pending.Nodup ∧
      (items.foldl (fun a it =>
          ((processFutureItem up ak services a.1 it).1,
           a.2 ++ (processFutureItem up ak services a.1 it).2.toList)) (st, acc)).1.futureQueue =
        st.futureQueue ∧
      (items.foldl (fun a it =>
          ((processFutureItem up ak services a.1 it).1,
           a.2 ++ (processFutureItem up ak services a.1 it).2.toList)) (st, acc)).1.resultQueue =
        st.resultQueue := by
  intro items
  induction items with
  | nil =>
    intro st acc _ _ hpn hacc hpb
    exact ⟨fun k hk => hk, fun k _ => rfl, hacc, hpb, hpn, rfl, rfl⟩
  | cons it rest ih =>
    intro st acc hnb hnd hpn hacc hpb
    rw [List.foldl_cons]
    have hspec := processFutureItem_spec up ak services st it hpn
    obtain ⟨pf1, pf2, pf3, pf4, pf5, pf6, pf7, pf8⟩ := hspec
    have hitnb : itemKey it ∉ bookedKeys st := hnb it (List.mem_cons_self it rest)
    have hndr : (rest.map itemKey).Nodup := (List.nodup_cons.mp (by simpa using hnd)).2
    have hitrest : itemKey it ∉ rest.map itemKey := (List.nodup_cons.mp (by simpa using hnd)).1
    obtain ⟨c1, c2, c3, c4, c5, c6, c7⟩ := ih (processFutureItem up ak services st it).1
      (acc ++ (processFutureItem up ak services st it).2.toList)
      (by
        intro it2 hit2 hcon
        rcases pf2 _ hcon with h2 | h2
        · exact hnb it2 (List.mem_cons_of_mem it hit2) h2
        · exact hitrest (h2 ▸ List.mem_map_of_mem itemKey hit2))
      hndr
      pf6
      (by
        intro r hr
        rcases List.mem_append.mp hr with h2 | h2
        · exact pf1 _ (hacc r h2)
        · exact pf4 r h2)
      (by
        intro k hk hcon
        have h5 := pf5 k hk
        rcases pf2 _ hcon with h2 | h2
        · exact hpb k h5.1 h2
        · exact h5.2 h2)
    refine ⟨?_, ?_, c3, c4, c5, by rw [c6, pf7], by rw [c7, pf8]⟩
    · intro k hk
      exact c1 k (pf1 k hk)
    · intro k hk
      rw [c2 k (pf1 k hk)]
      refine pf3 k ?_
      intro hcon
      exact hitnb (hcon ▸ hk)

theorem discStep_spec (up : Upstream) (ak : Bool) (services : List String)
    (st : LoopState) (hinv : LoopInv st) :
    LoopInv (discStep up ak services st) ∧
    (∀ k, k ∈ bookedKeys st → k ∈ bookedKeys (discStep up ak services st)) ∧
    (∀ k, k ∈ bookedKeys st →
      probesFor k (discStep up ak services st).z.bookingCalls =
        probesFor k st.z.bookingCalls) := by
  obtain ⟨henq, hqb⟩ := hinv
  unfold discStep
  rcases hq : st.resultQueue with _ | ⟨r, rest⟩
  · exact ⟨⟨henq, by rw [hq]; intro r hr; simp at hr⟩, fun k hk => hk, fun k _ => rfl⟩
  · simp only [hq]
    set stq : LoopState := { st with resultQueue := rest } with hstq
    have henq2 : EnqInv stq := ⟨henq.fq_pending, henq.pending_unbooked,
      henq.fq_nodup, henq.pending_nodup⟩
    have hrk : resKey r ∈ bookedKeys stq := hqb r (by rw [hq]; exact List.mem_cons_self r rest)
    obtain ⟨hinv1, hz1, hq1, hbk1⟩ := processResult_spec stq r henq2 hrk
    have hrest : ∀ r2 ∈ (processResult stq r).resultQueue,
        resKey r2 ∈ bookedKeys (processResult stq r) := by
      intro r2 hr2
      rw [hq1] at hr2
      refine (hbk1 _).mpr ?_
      exact hqb r2 (by rw [hq]; exact List.mem_cons_of_mem r hr2)
    by_cases hcond : (processResult stq r).resultQueue = [] ∧
        (processResult stq r).futureQueue ≠ []
    · rw [if_pos hcond]
      set st1 : LoopState := processResult stq r with hst1
      set st2 : LoopState :=
        { st1 with futureQueue := [], generations := st1.generations + 1 } with hst2
      have hb := runBatch_spec up ak services st1.futureQueue st2 []
        (by
          intro it hit hcon
          exact (hinv1.pending_unbooked (itemKey it) (hinv1.fq_pending it hit)) hcon)
        hinv1.fq_nodup
        hinv1.pending_nodup
        (by intro r2 hr2; simp at hr2)
        (by
          intro k hk hcon
          exact (hinv1.pending_unbooked k hk) hcon)
      obtain ⟨c1, c2, c3, c4, c5, c6, c7⟩ := hb
      rw [runBatch]
      refine ⟨⟨⟨?_, ?_, ?_, ?_⟩, ?_⟩, ?_, ?_⟩
      · intro it hit
        rw [c6] at hit
        simp at hit
      · intro k hk
        exact c4 k hk
      · rw [c6]
        simp
      · exact c5
      · intro r2 hr2
        exact c3 r2 hr2
      · intro k hk
        refine c1 k ?_
        exact (hbk1 k).mpr hk
      · intro k hk
        rw [c2 k ((hbk1 k).mpr hk)]
        rw [hz1]
    · rw [if_neg hcond]
      refine ⟨⟨⟨hinv1.fq_pending, hinv1.pending_unbooked, hinv1.fq_nodup,
          hinv1.pending_nodup⟩, hrest⟩, ?_, ?_⟩
      · intro k hk
        exact (hbk1 k).mpr hk
      · intro k _
        rw [hz1]

theorem discLoop_empty (up : Upstream) (ak : Bool) (svc : List String) :
    ∀ (f : Nat) (st : LoopState), st.resultQueue = [] → discLoop up ak svc f st = st := by
  intro f st h
  cases f with
  | zero => rfl
  | succ f =>
    unfold discLoop
    rw [if_pos h]

theorem discLoop_spec (up : Upstream) (ak : Bool) (svc : List String) :
    ∀ (f : Nat) (st : LoopState), LoopInv st →
      LoopInv (discLoop up ak svc f st) ∧
      (∀ k, k ∈ bookedKeys st → k ∈ bookedKeys (discLoop up ak svc f st)) ∧
      (∀ k, k ∈ bookedKeys st →
        probesFor k (discLoop up ak svc f st).z.bookingCalls =
          probesFor k st.z.bookingCalls) := by
  intro f
  induction f with
  | zero => intro st h; exact ⟨h, fun k hk => hk, fun k _ => rfl⟩
  | succ f ih =>
    intro st h
    unfold discLoop
    by_cases hq : st.resultQueue = []
    · rw [if_pos hq]
      exact ⟨h, fun k hk => hk, fun k _ => rfl⟩
    · rw [if_neg hq]
      obtain ⟨h1, h2, h3⟩ := discStep_spec up ak svc st h
      obtain ⟨i1, i2, i3⟩ := ih (discStep up ak svc st) h1
      exact ⟨i1, fun k hk => i2 k (h2 k hk),
        fun k hk => by rw [i3 k (h2 k hk), h3 k hk]⟩

theorem discLoop_add (up : Upstream) (ak : Bool) (svc : List String) :
    ∀ (f₁ f₂ : Nat) (st : LoopState),
      discLoop up ak svc (f₁ + f₂) st = discLoop up ak svc f₂ (discLoop up ak svc f₁ st) := by
  intro f₁
  induction f₁ with
  | zero =>
    intro f₂ st
    rw [Nat.zero_add]
    rfl
  | succ f ih =>
    intro f₂ st
    by_cases hq : st.resultQueue = []
    · rw [discLoop_empty up ak svc _ _ hq, discLoop_empty up ak svc _ _ hq]
      exact (discLoop_empty up ak svc f₂ st hq).symm
    · have hsucc : f + 1 + f₂ = (f + f₂) + 1 := by omega
      rw [hsucc]
      conv_lhs => rw [discLoop]
      conv_rhs => rw [discLoop]
      rw [if_neg hq, if_neg hq]
      exact ih f₂ (discStep up ak svc st)

theorem fetchSlotResult_key (up : Upstream) (ak : Bool) (c : String) (d : Int)
    (bid : String) (z : ZState) :
    (fetchSlotResult up ak c d bid z).1.centerId = c ∧
    (fetchSlotResult up ak c d bid z).1.date = d := by
  unfold fetchSlotResult
  rcases h : fetchZenotiSlots up ak bid true z with ⟨fr, z1⟩
  cases fr <;> simp [h]

theorem phase2_keys_aux (up : Upstream) (ak : Bool) :
    ∀ (succ : List InitRes) (acc : List SlotResult × ZState),
      ∀ r ∈ (succ.foldl (fun acc r =>
          match r.bookingId with
          | some bid =>
            ((acc.1 ++ [(fetchSlotResult up ak r.centerId r.date bid acc.2).1],
              (fetchSlotResult up ak r.centerId r.date bid acc.2).2) :
                List SlotResult × ZState)
          | none => acc) acc).1,
        r ∈ acc.1 ∨ ∃ i ∈ succ, r.centerId = i.centerId ∧ r.date = i.date := by
  intro succ
  induction succ with
  | nil => intro acc r hr; exact Or.inl hr
  | cons i rest ih =>
    intro acc r hr
    rw [List.foldl_cons] at hr
    cases hb : i.bookingId with
    | none =>
      rw [hb] at hr
      rcases ih acc r hr with h2 | ⟨i2, hi2, hk2⟩
      · exact Or.inl h2
      · exact Or.inr ⟨i2, List.mem_cons_of_mem i hi2, hk2⟩
    | some bid =>
      rw [hb] at hr
      rcases ih _ r hr with h2 | ⟨i2, hi2, hk2⟩
      · rcases List.mem_append.mp h2 with h3 | h3
        · exact Or.inl h3
        · simp only [List.mem_singleton] at h3
          subst h3
          refine Or.inr ⟨i, List.mem_cons_self i rest, ?_⟩
          exact ⟨(fetchSlotResult_key up ak i.centerId i.date bid acc.2).1,
            (fetchSlotResult_key up ak i.centerId i.date bid acc.2).2⟩
      · exact Or.inr ⟨i2, List.mem_cons_of_mem i hi2, hk2⟩

theorem phase1_booked_aux (up : Upstream) (ak : Bool) (svc : List String) :
    ∀ (pairs : List CDKey) (acc : Phase1Out),
      (∀ r ∈ acc.results, r.bookingId.isSome = true →
        (r.centerId, r.date) ∈ acc.booked.map (fun p => p.1)) →
      ∀ r ∈ (pairs.foldl (phase1Step up ak svc) acc).results, r.bookingId.isSome = true →
        (r.centerId, r.date) ∈
          (pairs.foldl (phase1Step up ak svc) acc).booked.map (fun p => p.1) := by
  intro pairs
  induction pairs with
  | nil => intro acc h; exact h
  | cons p rest ih =>
    intro acc h
    rw [List.foldl_cons]
    refine ih _ ?_
    unfold phase1Step
    rcases hpr : createZenotiBooking up ak p.1 p.2 svc acc.z with ⟨res, z1⟩
    cases res with
    | error msg =>
      simp only
      intro r hr hsome
      rcases List.mem_append.mp hr with h2 | h2
      · exact h r h2 hsome
      · simp only [List.mem_singleton] at h2
        subst h2
        simp at hsome
    | ok b =>
      by_cases hacc2 : bookingAccepted b = true
      · simp only [hacc2, if_true]
        intro r hr hsome
        rcases List.mem_append.mp hr with h2 | h2
        · exact (bookedSet_keys_iff acc.booked p (b.id.getD "") _).mpr
            (Or.inl (h r h2 hsome))
        · simp only [List.mem_singleton] at h2
          subst h2
          exact (bookedSet_keys_iff acc.booked p (b.id.getD "") _).mpr (Or.inr rfl)
      · simp only [hacc2, Bool.false_eq_true, if_false]
        intro r hr hsome
        rcases List.mem_append.mp hr with h2 | h2
        · exact h r h2 hsome
        · simp only [List.mem_singleton] at h2
          subst h2
          simp at hsome

theorem targetDatesFor_nodup (today : Int) (weeks : Nat) :
    (targetDatesFor today weeks).Nodup := by
  unfold targetDatesFor getWeekDates
  refine List.Nodup.filter _ ?_
  rw [List.map_map]
  refine List.Nodup.map ?_ (List.nodup_range weeks)
  intro a b h
  have h2 : (today - dayOfWeek today) + 7 * (a : Int) =
      (today - dayOfWeek today) + 7 * (b : Int) := h
  omega

/-- C1 (amended): per discovery run, (i) the filtered week-start dates
are duplicate-free, and with duplicate-free centers the initial wave
issues at most one probe per (centerId, date) pair; (ii) the
future-booking expansion never enqueues a key that is already processed,
pending, or recorded in the booking map; (iii) under the loop invariant,
once a key has a recorded booking at any point of the discovery loop, no
further probe for it is ever issued for the remainder of the run; and
(iv) the loop state the run starts with satisfies that invariant.  (A
pair whose initial probe failed has no recorded booking and can be
probed a second time by the expansion, and hint dates are not clamped to
the horizon, so the per-pair and generation bounds of the original claim
hold only in this amended form — see the counterexample.) -/
theorem C1_probe_dedup :
    (∀ (today : Int) (weeks : Nat), (targetDatesFor today weeks).Nodup) ∧
    (∀ (up : Upstream) (ak : Bool) (svc : List String) (centers : List String)
        (dates : List Int) (z : ZState), centers.Nodup → dates.Nodup →
      ∀ k : CDKey,
        probesFor k (phase1 up ak svc (prodPairs centers dates) z).z.bookingCalls ≤
          probesFor k z.bookingCalls + 1) ∧
    (∀ (st : LoopState) (c : String) (srcB : Option String) (d : Int),
      ((c, d) ∈ st.processed ∨ (c, d) ∈ st.pending ∨ (c, d) ∈ bookedKeys st) →
      enqueueFutureBooking st c srcB d = st) ∧
    (∀ (up : Upstream) (ak : Bool) (svc : List String) (f₁ f₂ : Nat) (st : LoopState)
        (k : CDKey), LoopInv st →
      k ∈ bookedKeys (discLoop up ak svc f₁ st) →
      probesFor k (discLoop up ak svc (f₁ + f₂) st).z.bookingCalls =
        probesFor k (discLoop up ak svc f₁ st).z.bookingCalls) ∧
    (∀ (up : Upstream) (ak : Bool) (svc : List String) (pairs : List CDKey) (z : ZState),
      LoopInv (initLoopState
        (phase2 up ak ((phase1 up ak svc pairs z).results.filter
          (fun r => r.bookingId.isSome)) (phase1 up ak svc pairs z).z).2
        (phase2 up ak ((phase1 up ak svc pairs z).results.filter
          (fun r => r.bookingId.isSome)) (phase1 up ak svc pairs z).z).1
        (phase1 up ak svc pairs z).booked)) := by
  refine ⟨targetDatesFor_nodup, ?_, ?_, ?_, ?_⟩
  · intro up ak svc centers dates z hc hd k
    have h1 := phase1_probes_aux up ak svc k (prodPairs centers dates)
      { results := [], z := z, booked := [] }
    have h2 := countP_key_le_one (prodPairs_nodup hc hd) k
    have h3 : probesFor k ({ results := [], z := z, booked := [] } : Phase1Out).z.bookingCalls =
        probesFor k z.bookingCalls := rfl
    unfold phase1
    omega
  · intro st c srcB d hmem
    unfold enqueueFutureBooking
    rw [if_pos hmem]
  · intro up ak svc f₁ f₂ st k hinv hk
    rw [discLoop_add]
    obtain ⟨j1, _, _⟩ := discLoop_spec up ak svc f₁ st hinv
    obtain ⟨_, _, i3⟩ := discLoop_spec up ak svc f₂ (discLoop up ak svc f₁ st) j1
    exact i3 k hk
  · intro up ak svc pairs z
    constructor
    · refine ⟨?_, ?_, ?_, ?_⟩
      · intro it hit
        simp [initLoopState] at hit
      · intro k hk
        simp [initLoopState] at hk
      · simp [initLoopState]
      · simp [initLoopState]
    · intro r hr
      have hkeys := phase2_keys_aux up ak
        ((phase1 up ak svc pairs z).results.filter (fun r => r.bookingId.isSome))
        ([], (phase1 up ak svc pairs z).z)
      have hr2 : r ∈ (phase2 up ak ((phase1 up ak svc pairs z).results.filter
          (fun r => r.bookingId.isSome)) (phase1 up ak svc pairs z).z).1 := hr
      rcases hkeys r (by
        unfold phase2 at hr2
        exact hr2) with h2 | ⟨i, hi, hik⟩
      · simp at h2
      · have hi2 := List.mem_filter.mp hi
        have hbooked := phase1_booked_aux up ak svc pairs
          { results := [], z := z, booked := [] }
          (by intro r2 hr2b; simp at hr2b)
          i hi2.1 (by simpa using hi2.2)
        have : resKey r = (i.centerId, i.date) := by
          rw [resKey, hik.1, hik.2]
        rw [this]
        exact hbooked

set_option maxRecDepth 8000 in
/-- C1 counterexample.  First run (today = Sunday 20002, weeks = 2,
center A): the initial probe for (A, 20009) fails, so the pair is never
recorded as processed, pending or booked, and when the successful
(A, 20002) result hints 20009 the expansion enqueues and probes the pair
a second time — two probes for the same (location, date) pair.  Second
run (weeks = 1): an unclamped hint chain drives the run to 31
generations, exceeding locations × dates-in-horizon = 1 × 29 (the
inclusive horizon [today, today + 28] holds 29 dates), with all 30
future probes beyond the horizon. -/
theorem C1_counterexample :
    (runUnified [] upDouble true [] 0 20002 [("A")] [("S")] 2 10).2.bookingCalls.countP
      (fun c => c.centerId = ("A") ∧ c.date = 20009) = 2 ∧
    outcomeGenerations (runUnified [] upChain true [] 0 20002 [("A")] [("S")] 1 40).1 =
      some 31 ∧
    1 * 29 < 31 ∧
    (runUnified [] upChain true [] 0 20002 [("A")] [("S")] 1 40).2.bookingCalls.countP
      (fun c => 20002 + 28 < c.date) = 30 :=
  ⟨rfl, rfl, by omega, rfl⟩

/-- C1 witness: the enqueue-guard clause of the amended statement applied
at a concrete pending key. -/
theorem C1_witness :
    enqueueFutureBooking
      { z := { cache := [], now := 0, bookingCalls := [], slotsCalls := [] },
        resultQueue := [], futureQueue := [], processed := [],
        pending := [(("A"), 20002)], booked := [], allResults := [], generations := 1 }
      ("A") none 20002 =
      { z := { cache := [], now := 0, bookingCalls := [], slotsCalls := [] },
        resultQueue := [], futureQueue := [], processed := [],
        pending := [(("A"), 20002)], booked := [], allResults := [], generations := 1 } :=
  C1_probe_dedup.2.2.1 _ ("A") none 20002 (Or.inr (Or.inl (by decide)))

